import Mathlib

/-!
Verification of the streaming Minecraft statistics importer
(`importer_streaming.py`): a shallow embedding of the pipeline's data
model and operations, followed by theorems settling the specification's
claims.

Modelling conventions:
* 16-byte player ids (`BINARY(16)` uuids) are lists of byte values.
* Python dicts used as keyed maps (the in-memory digest map, DB tables
  keyed by primary key) are association lists; `alookup` is `dict.get`,
  `aupdate` is `dict[k] = v` / `INSERT ... ON DUPLICATE KEY UPDATE`
  (replace in place when the key exists, append otherwise).
* SHA-1 is implemented concretely over byte lists (arithmetic on `Nat`
  modulo 2^32).
* gzip compression of the stored payload is omitted from the stats row
  (claims only concern which players receive rows and their digests).
-/

namespace Importer

/-- `dict.get k` on an association list: first entry wins. -/
def alookup {κ β : Type} [DecidableEq κ] : List (κ × β) → κ → Option β
  | [], _ => none
  | e :: rest, q => if q = e.1 then some e.2 else alookup rest q

/-- `dict[k] = v`: replace the entry in place when the key exists,
append otherwise (Python dicts and SQL upserts keep row identity). -/
def aupdate {κ β : Type} [DecidableEq κ] (m : List (κ × β)) (k : κ) (v : β) :
    List (κ × β) :=
  if m.any (fun e => decide (e.1 = k)) then
    m.map (fun e => if e.1 = k then (e.1, v) else e)
  else m ++ [(k, v)]

theorem alookup_append {κ β : Type} [DecidableEq κ] (a b : List (κ × β)) (q : κ) :
    alookup (a ++ b) q = ((alookup a q).rec (alookup b q) (fun v => some v) : Option β) := by
  induction a with
  | nil => simp [alookup]
  | cons e rest ih =>
    by_cases h : q = e.1 <;> simp [alookup, h, ih]

theorem alookup_eq_none_of_not_mem_keys {κ β : Type} [DecidableEq κ]
    {m : List (κ × β)} {q : κ} (h : ∀ e ∈ m, ¬ q = e.1) : alookup m q = none := by
  induction m with
  | nil => rfl
  | cons e rest ih =>
    have h1 : ¬ q = e.1 := h e (List.mem_cons_self e rest)
    simp only [alookup, if_neg h1]
    exact ih (fun x hx => h x (List.mem_cons_of_mem e hx))

theorem alookup_eq_none_iff {κ β : Type} [DecidableEq κ]
    (m : List (κ × β)) (q : κ) : alookup m q = none ↔ q ∉ m.map Prod.fst := by
  induction m with
  | nil => simp [alookup]
  | cons e rest ih =>
    by_cases h : q = e.1 <;> simp [alookup, h, ih]

theorem mem_of_alookup_eq_some {κ β : Type} [DecidableEq κ]
    {m : List (κ × β)} {q : κ} {v : β} (h : alookup m q = some v) : (q, v) ∈ m := by
  induction m with
  | nil => simp [alookup] at h
  | cons e rest ih =>
    by_cases hq : q = e.1
    · simp only [alookup, if_pos hq] at h
      obtain rfl : e.2 = v := Option.some.inj h
      subst hq
      exact List.mem_cons_self _ _
    · simp only [alookup, if_neg hq] at h
      exact List.mem_cons_of_mem e (ih h)

theorem alookup_of_mem_nodup {κ β : Type} [DecidableEq κ]
    {m : List (κ × β)} (hnd : (m.map Prod.fst).Nodup)
    {q : κ} {v : β} (h : (q, v) ∈ m) : alookup m q = some v := by
  induction m with
  | nil => simp at h
  | cons e rest ih =>
    simp only [List.map_cons, List.nodup_cons] at hnd
    rcases List.mem_cons.mp h with h1 | h1
    · subst h1; simp [alookup]
    · have hq : ¬ q = e.1 := by
        intro hqe
        exact hnd.1 (List.mem_map.mpr ⟨(q, v), h1, hqe⟩)
      simp only [alookup, if_neg hq]
      exact ih hnd.2 h1

theorem alookup_map_replace_ne {κ β : Type} [DecidableEq κ]
    (m : List (κ × β)) (k : κ) (v : β) {q : κ} (hq : ¬ q = k) :
    alookup (m.map (fun e => if e.1 = k then (e.1, v) else e)) q = alookup m q := by
  induction m with
  | nil => rfl
  | cons e rest ih =>
    have hfst : (if e.1 = k then (e.1, v) else e).1 = e.1 := by
      by_cases h : e.1 = k <;> simp [h]
    by_cases h : q = e.1
    · have hsnd : (if e.1 = k then (e.1, v) else e).2 = e.2 := by
        have : ¬ e.1 = k := fun he => hq (h.trans he)
        simp [this]
      simp [alookup, hfst, hsnd, h]
    · simp [alookup, hfst, h, ih]

theorem alookup_map_replace_self {κ β : Type} [DecidableEq κ]
    (m : List (κ × β)) (k : κ) (v : β) :
    alookup (m.map (fun e => if e.1 = k then (e.1, v) else e)) k =
      (alookup m k).map (fun _ => v) := by
  induction m with
  | nil => rfl
  | cons e rest ih =>
    by_cases h : k = e.1
    · have he : e.1 = k := h.symm
      rw [List.map_cons, if_pos he]
      simp [alookup, h]
    · have he : ¬ e.1 = k := fun hek => h hek.symm
      rw [List.map_cons, if_neg he]
      simp [alookup, h, ih]

theorem aupdate_alookup {κ β : Type} [DecidableEq κ]
    (m : List (κ × β)) (k : κ) (v : β) (q : κ) :
    alookup (aupdate m k v) q = if q = k then some v else alookup m q := by
  unfold aupdate
  by_cases hany : m.any (fun e => decide (e.1 = k)) = true
  · rw [if_pos hany]
    by_cases hq : q = k
    · subst hq
      rw [if_pos rfl, alookup_map_replace_self]
      obtain ⟨e, he, hek⟩ := List.any_eq_true.mp hany
      have hek2 : e.1 = q := of_decide_eq_true hek
      cases h : alookup m q with
      | none =>
        have hno : q ∉ m.map Prod.fst := (alookup_eq_none_iff m q).mp h
        exact absurd (List.mem_map.mpr ⟨e, he, hek2⟩) hno
      | some w => simp
    · rw [if_neg hq]
      exact alookup_map_replace_ne m k v hq
  · rw [if_neg hany]
    have hnone : alookup m k = none := by
      apply alookup_eq_none_of_not_mem_keys
      intro e he hk
      exact hany (List.any_eq_true.mpr ⟨e, he, by simp [← hk]⟩)
    rw [alookup_append]
    by_cases hq : q = k
    · subst hq
      rw [hnone]
      simp [alookup]
    · rw [if_neg hq]
      cases h : alookup m q with
      | none => simp [alookup, hq]
      | some w => simp

/-! ### Sorting

Insertion sort, used to model `json.dumps(..., sort_keys=True)` and the
SQL `ORDER BY` of the leaderboard recompute.  Structural recursion keeps
every definition kernel-evaluable. -/

def insertLe {α : Type} (le : α → α → Bool) (x : α) : List α → List α
  | [] => [x]
  | y :: ys => if le x y then x :: y :: ys else y :: insertLe le x ys

def sortByLe {α : Type} (le : α → α → Bool) : List α → List α
  | [] => []
  | x :: xs => insertLe le x (sortByLe le xs)

theorem insertLe_perm {α : Type} (le : α → α → Bool) (x : α) (l : List α) :
    (insertLe le x l).Perm (x :: l) := by
  induction l with
  | nil => exact List.Perm.refl _
  | cons y ys ih =>
    by_cases h : le x y = true
    · simp [insertLe, h]
    · simp only [insertLe, if_neg h]
      exact (ih.cons y).trans (List.Perm.swap x y ys)

theorem sortByLe_perm {α : Type} (le : α → α → Bool) (l : List α) :
    (sortByLe le l).Perm l := by
  induction l with
  | nil => exact List.Perm.refl _
  | cons x xs ih =>
    exact (insertLe_perm le x (sortByLe le xs)).trans (ih.cons x)

theorem insertLe_pairwise {α : Type} {le : α → α → Bool}
    (htr : ∀ a b c, le a b = true → le b c = true → le a c = true)
    (hto : ∀ a b, le a b = true ∨ le b a = true)
    (x : α) {l : List α} (hl : l.Pairwise (fun a b => le a b = true)) :
    (insertLe le x l).Pairwise (fun a b => le a b = true) := by
  induction l with
  | nil => simp [insertLe]
  | cons y ys ih =>
    rcases List.pairwise_cons.mp hl with ⟨hy, hys⟩
    by_cases h : le x y = true
    · simp only [insertLe, if_pos h]
      refine List.pairwise_cons.mpr ⟨?_, hl⟩
      intro a ha
      rcases List.mem_cons.mp ha with rfl | ha
      · exact h
      · exact htr x y a h (hy a ha)
    · simp only [insertLe, if_neg h]
      refine List.pairwise_cons.mpr ⟨?_, ih hys⟩
      intro a ha
      have := (insertLe_perm le x ys).mem_iff.mp ha
      rcases List.mem_cons.mp this with rfl | ha2
      · rcases hto a y with h1 | h1
        · exact absurd h1 h
        · exact h1
      · exact hy a ha2

theorem sortByLe_pairwise {α : Type} {le : α → α → Bool}
    (htr : ∀ a b c, le a b = true → le b c = true → le a c = true)
    (hto : ∀ a b, le a b = true ∨ le b a = true)
    (l : List α) : (sortByLe le l).Pairwise (fun a b => le a b = true) := by
  induction l with
  | nil => simp [sortByLe]
  | cons x xs ih => exact insertLe_pairwise htr hto x ih

/-- Two association lists with strictly increasing keys and equal lookups
are equal: the core of canonicalization determinism. -/
theorem strict_sorted_lookup_ext {κ β : Type} [DecidableEq κ] [LinearOrder κ] :
    ∀ (a b : List (κ × β)),
      a.Pairwise (fun x y => x.1 < y.1) → b.Pairwise (fun x y => x.1 < y.1) →
      (∀ k, alookup a k = alookup b k) → a = b := by
  intro a
  induction a with
  | nil =>
    intro b _ _ h
    cases b with
    | nil => rfl
    | cons e tb =>
      have := h e.1
      simp [alookup] at this
  | cons ea ta ih =>
    intro b ha hb h
    cases b with
    | nil =>
      have := h ea.1
      simp [alookup] at this
    | cons eb tb =>
      rcases List.pairwise_cons.mp ha with ⟨hta, hta2⟩
      rcases List.pairwise_cons.mp hb with ⟨htb, htb2⟩
      have hkey : ea.1 = eb.1 := by
        by_contra hne
        have h1 : alookup (eb :: tb) ea.1 = some ea.2 := by
          rw [← h ea.1]; simp [alookup]
        have h2 : alookup (ea :: ta) eb.1 = some eb.2 := by
          rw [h eb.1]; simp [alookup]
        have hne2 : ¬ eb.1 = ea.1 := fun hx => hne hx.symm
        rw [show alookup (eb :: tb) ea.1 = alookup tb ea.1 from by
          simp [alookup, hne]] at h1
        rw [show alookup (ea :: ta) eb.1 = alookup ta eb.1 from by
          simp [alookup, hne2]] at h2
        have hm1 := mem_of_alookup_eq_some h1
        have hm2 := mem_of_alookup_eq_some h2
        have hlt1 : eb.1 < ea.1 := htb _ hm1
        have hlt2 : ea.1 < eb.1 := hta _ hm2
        exact absurd hlt2 (not_lt_of_gt hlt1)
      have hval : ea.2 = eb.2 := by
        have := h ea.1
        simp [alookup, hkey] at this
        exact this
      have htail : ∀ k, alookup ta k = alookup tb k := by
        intro k
        by_cases hk : k = ea.1
        · have h1 : alookup ta k = none := by
            apply alookup_eq_none_of_not_mem_keys
            intro e he hke
            have hlt := hta e he
            rw [← hk.symm.trans hke] at hlt
            exact lt_irrefl _ hlt
          have h2 : alookup tb k = none := by
            apply alookup_eq_none_of_not_mem_keys
            intro e he hke
            have hlt := htb e he
            rw [← hkey, ← hk.symm.trans hke] at hlt
            exact lt_irrefl _ hlt
          rw [h1, h2]
        · have := h k
          have hk2 : ¬ k = eb.1 := by rw [← hkey]; exact hk
          simpa [alookup, hk, hk2] using this
      have heq : ea = eb := Prod.ext hkey hval
      rw [heq, ih tb hta2 htb2 htail]

/-! ### JSON scalar values and the two-level stats tree

A stats file is `{section: {key: value}}`; leaf values are modelled as
JSON scalars (Minecraft stat values are integers; strings/booleans/null
cover malformed data the importer tolerates).  A section value that is
not an object is kept as a scalar (`prim`), matching the
`isinstance(kv, dict)` / `isinstance(sec_map, dict)` guards. -/

inductive JVal : Type
  | num (n : Int)
  | str (s : String)
  | boolean (b : Bool)
  | null
  deriving DecidableEq

inductive SecVal : Type
  | dict (kvs : List (String × JVal))
  | prim (v : JVal)
  deriving DecidableEq

abbrev StatsTree : Type := List (String × SecVal)

/-- `int(...)` applied to a decimal digit string (after `str.strip`):
Python's `int` accepts an optional sign followed by digits.  (Python
additionally allows underscore digit separators; such exotic strings do
not occur in stats files and are modelled as failures.) -/
def isDigitChar (c : Char) : Bool := 48 ≤ c.toNat && c.toNat ≤ 57

def decDigitsAux : List Char → Nat → Option Nat
  | [], acc => some acc
  | c :: cs, acc =>
      if isDigitChar c then decDigitsAux cs (acc * 10 + (c.toNat - 48)) else none

def decDigits : List Char → Option Nat
  | [] => none
  | cs => decDigitsAux cs 0

def isSpaceChar (c : Char) : Bool :=
  c == ' ' || c == '\t' || c == '\n' || c == '\r' || c.toNat == 11 || c.toNat == 12

/-- `str.strip()` (kernel-evaluable). -/
def pyStrip (cs : List Char) : List Char :=
  ((cs.dropWhile isSpaceChar).reverse.dropWhile isSpaceChar).reverse

def pyIntOfStr (s : String) : Option Int :=
  match pyStrip s.data with
  | '-' :: rest => (decDigits rest).map (fun n => -(n : Int))
  | '+' :: rest => (decDigits rest).map (fun n => (n : Int))
  | cs => (decDigits cs).map (fun n => (n : Int))

/-- Python `int(v)` on a JSON scalar: ints pass through, booleans become
0/1, numeric strings are parsed, everything else raises (`none`). -/
def pyToInt : JVal → Option Int
  | .num n => some n
  | .str s => pyIntOfStr s
  | .boolean b => some (cond b 1 0)
  | .null => none

/-! ### Canonical JSON serialization

`json.dumps(stats, sort_keys=True, separators=(",", ":"))` with the
default `ensure_ascii=True`: fully sorted keys, no incidental
whitespace, all non-ASCII characters escaped. -/

def hexDigitChar (n : Nat) : Char :=
  if n < 10 then Char.ofNat (48 + n) else Char.ofNat (87 + n)

def u4hex (n : Nat) : String :=
  String.mk [hexDigitChar (n / 4096 % 16), hexDigitChar (n / 256 % 16),
             hexDigitChar (n / 16 % 16), hexDigitChar (n % 16)]

def escapeChar (c : Char) : String :=
  let n := c.toNat
  if n = 34 then "\\\""
  else if n = 92 then "\\\\"
  else if n = 8 then "\\b"
  else if n = 9 then "\\t"
  else if n = 10 then "\\n"
  else if n = 12 then "\\f"
  else if n = 13 then "\\r"
  else if n < 32 then "\\u" ++ u4hex n
  else if n < 127 then String.singleton c
  else if n < 65536 then "\\u" ++ u4hex n
  else
    "\\u" ++ u4hex (55296 + (n - 65536) / 1024) ++
    "\\u" ++ u4hex (56320 + (n - 65536) % 1024)

def jsonStringLit (s : String) : String :=
  "\"" ++ String.join (s.data.map escapeChar) ++ "\""

def serJVal : JVal → String
  | .num n => toString n
  | .str s => jsonStringLit s
  | .boolean b => cond b "true" "false"
  | .null => "null"

def keyLe {α : Type} (x y : String × α) : Bool := decide (x.1 ≤ y.1)

def sortPairs {α : Type} (l : List (String × α)) : List (String × α) :=
  sortByLe keyLe l

def serSec : SecVal → String
  | .dict kvs =>
      "\x7b" ++ String.intercalate ","
        ((sortPairs kvs).map (fun e => jsonStringLit e.1 ++ ":" ++ serJVal e.2)) ++ "\x7d"
  | .prim v => serJVal v

def canonical_json (t : StatsTree) : String :=
  "\x7b" ++ String.intercalate ","
    ((sortPairs t).map (fun e => jsonStringLit e.1 ++ ":" ++ serSec e.2)) ++ "\x7d"

def utf8Char (c : Char) : List Nat :=
  let n := c.toNat
  if n < 128 then [n]
  else if n < 2048 then [192 + n / 64, 128 + n % 64]
  else if n < 65536 then [224 + n / 4096, 128 + n / 64 % 64, 128 + n % 64]
  else [240 + n / 262144, 128 + n / 4096 % 64, 128 + n / 64 % 64, 128 + n % 64]

def utf8Encode (s : String) : List Nat := (s.data.map utf8Char).flatten

/-- The canonical byte form hashed and stored by the importer
(`json.dumps(...).encode("utf-8")`, line 653). -/
def canonical_bytes (t : StatsTree) : List Nat := utf8Encode (canonical_json t)

/-! ### SHA-1 (`hashlib.sha1(json_bytes).digest()`, 20 bytes) -/

def w32 (n : Nat) : Nat := n % 4294967296

def rotl32 (s n : Nat) : Nat := w32 ((n <<< s) ||| (n >>> (32 - s)))

/-- Big-endian byte expansion of `n` to `k` bytes. -/
def beBytes : Nat → Nat → List Nat
  | 0, _ => []
  | k + 1, n => beBytes k (n / 256) ++ [n % 256]

def sha1Pad (msg : List Nat) : List Nat :=
  msg ++ [128] ++ List.replicate ((119 - msg.length % 64) % 64) 0 ++
    beBytes 8 (msg.length * 8)

def wordsOfBytes : List Nat → List Nat
  | b0 :: b1 :: b2 :: b3 :: rest =>
      (((b0 * 256 + b1) * 256 + b2) * 256 + b3) :: wordsOfBytes rest
  | _ => []

def sha1ExtendRev : Nat → List Nat → List Nat
  | 0, ws => ws
  | k + 1, ws =>
      let n := rotl32 1 ((ws.getD 2 0) ^^^ (ws.getD 7 0) ^^^ (ws.getD 13 0) ^^^ (ws.getD 15 0))
      sha1ExtendRev k (n :: ws)

def sha1Schedule (ws16 : List Nat) : List Nat :=
  (sha1ExtendRev 64 ws16.reverse).reverse

def sha1F (t b c d : Nat) : Nat :=
  if t < 20 then (b &&& c) ||| ((b ^^^ 4294967295) &&& d)
  else if t < 40 then b ^^^ c ^^^ d
  else if t < 60 then (b &&& c) ||| (b &&& d) ||| (c &&& d)
  else b ^^^ c ^^^ d

def sha1K (t : Nat) : Nat :=
  if t < 20 then 1518500249
  else if t < 40 then 1859775393
  else if t < 60 then 2400959708
  else 3395469782

def sha1Rounds : Nat → List Nat → Nat × Nat × Nat × Nat × Nat → Nat × Nat × Nat × Nat × Nat
  | _, [], st => st
  | t, wi :: ws, (a, b, c, d, e) =>
      sha1Rounds (t + 1) ws
        (w32 (rotl32 5 a + sha1F t b c d + e + sha1K t + wi), a, rotl32 30 b, c, d)

def sha1Chunk (h : Nat × Nat × Nat × Nat × Nat) (chunk : List Nat) :
    Nat × Nat × Nat × Nat × Nat :=
  let ws := sha1Schedule (wordsOfBytes chunk)
  match h, sha1Rounds 0 ws h with
  | (h0, h1, h2, h3, h4), (a, b, c, d, e) =>
      (w32 (h0 + a), w32 (h1 + b), w32 (h2 + c), w32 (h3 + d), w32 (h4 + e))

def chunks64 : Nat → List Nat → List (List Nat)
  | 0, _ => []
  | _, [] => []
  | fuel + 1, l => l.take 64 :: chunks64 fuel (l.drop 64)

def sha1 (msg : List Nat) : List Nat :=
  let padded := sha1Pad msg
  match (chunks64 padded.length padded).foldl sha1Chunk
      (1732584193, 4023233417, 2562383102, 271733878, 3285377520) with
  | (h0, h1, h2, h3, h4) => ([h0, h1, h2, h3, h4].map (beBytes 4)).flatten

/-! ### Pipeline data model -/

/-- 16-byte binary player id (`uuid_to_bin` result). -/
abbrev PlayerId : Type := List Nat

/-- One row of `metric_source` (the field `section` is renamed
`sectionName`: `section` is a Lean keyword). -/
structure MetricSource where
  metric_id : String
  sectionName : String
  mc_key : String
  weight : Int
  deriving DecidableEq

/-- `str.endsWith` over character lists (kernel-evaluable). -/
def strEndsWith (s suffix : String) : Bool :=
  s.data.drop (s.data.length - suffix.data.length) == suffix.data

/-- `strip_wall_banners`: drop keys ending `_wall_banner` from every
dict-valued section; non-dict sections are left untouched. -/
def strip_wall_banners (t : StatsTree) : StatsTree :=
  t.map (fun e =>
    match e.2 with
    | .dict kvs => (e.1, .dict (kvs.filter (fun kv => ! strEndsWith kv.1 "_wall_banner")))
    | .prim v => (e.1, .prim v))

/-- What `json.loads` handed to the stats-extraction logic of the main
loop: not an object at all, an object used directly, or an object whose
`"stats"` key holds the stats object. -/
inductive RawDoc : Type
  | nonDict
  | plain (t : StatsTree)
  | wrapped (t : StatsTree)

/-- `raw.get("stats")` when dict, else `raw` when dict, else `{}`. -/
def extractStats : RawDoc → StatsTree
  | .nonDict => []
  | .plain t => t
  | .wrapped t => t

/-- One file of the stats directory: the parse of its filename stem
(`uuid_to_bin`, `none` when invalid) and its parsed JSON content
(`none` when `json.loads` failed). -/
structure InputFile where
  uuidBin : Option PlayerId
  doc : Option RawDoc

/-- `stats.get(sec, {}).get(key, ...)` made total: the raw JSON value at
`stats[sec][key]`, `none` when the section is absent, not an object, or
lacks the key. -/
def rawValueAt (stats : StatsTree) (sec key : String) : Option JVal :=
  match alookup stats sec with
  | some (.dict kvs) => alookup kvs key
  | _ => none

/-- `int(stats.get("minecraft:custom", {}).get("minecraft:play_time", 0))`
with every exception collapsed to 0 (lines 603-607): a missing entry is
the literal default `0`, a non-dict section raises `AttributeError`, a
non-convertible value raises in `int` — all three paths yield 0. -/
def play_time_of (stats : StatsTree) : Int :=
  match rawValueAt stats "minecraft:custom" "minecraft:play_time" with
  | some v => (pyToInt v).getD 0
  | none => 0

/-- `int(v) * int(weight)` for one readable value: `None` is skipped by
the `v is None` guard, a failing `int(v)` is skipped by the `except`
clause (both contribute 0). -/
def contribOf (v : JVal) (weight : Int) : Int :=
  match v with
  | .null => 0
  | .num n => n * weight
  | .boolean b => (cond b 1 0) * weight
  | .str s =>
      match pyIntOfStr s with
      | some n => n * weight
      | none => 0

theorem contribOf_eq_pyToInt (v : JVal) (weight : Int) :
    contribOf v weight =
      match v with
      | .null => 0
      | w => match pyToInt w with
             | some n => n * weight
             | none => 0 := by
  rcases v with n | s | b | _
  · rfl
  · unfold contribOf pyToInt
    rcases pyIntOfStr s with _ | n <;> rfl
  · rfl
  · rfl

/-- One metric source's contribution to a metric total (lines 673-681):
a missing section / non-dict section / missing key defaults the value to
the literal `0`, contributing `int(0) * weight = 0`. -/
def sourceContribution (stats : StatsTree) (src : MetricSource) : Int :=
  match rawValueAt stats src.sectionName src.mc_key with
  | some v => contribOf v src.weight
  | none => 0

def metricTotal (stats : StatsTree) (srcs : List MetricSource) : Int :=
  srcs.foldl (fun acc s => acc + sourceContribution stats s) 0

/-- One row of `metric_value` for the single active run. -/
structure MetricRow where
  metric_id : String
  uuid : PlayerId
  value : Int
  deriving DecidableEq

/-- The metric loop of lines 670-683: one row per enabled metric whose
total is strictly positive. -/
def computeMetrics (ms : List (String × List MetricSource)) (stats : StatsTree)
    (u : PlayerId) : List MetricRow :=
  ms.filterMap (fun e =>
    let total := metricTotal stats e.2
    if 0 < total then some ⟨e.1, u, total⟩ else none)

/-! ### Name resolution (lines 618-647) -/

def byteHexChars (b : Nat) : List Char := [hexDigitChar (b / 16 % 16), hexDigitChar (b % 16)]

def uuidHexChars (u : PlayerId) : List Char := (u.map byteHexChars).flatten

/-- The synthesized fallback display name:
`uuidlib.UUID(bytes=u_bin).hex[:12]` (line 635). -/
def fallbackName (u : PlayerId) : String := String.mk ((uuidHexChars u).take 12)

/-- `name[:16]` (the display-name cap applied at load time). -/
def strTake16 (s : String) : String := String.mk (s.data.take 16)

/-- `name.lower()` (ASCII model of Python's Unicode lowercasing,
kernel-evaluable). -/
def strToLower (s : String) : String := String.mk (s.data.map Char.toLower)

/-- One row of `player_profile` for the single active run.  When the
schema lacks the optional columns the importer omits them from its
INSERT; such absent columns are modelled as `none`. -/
structure ProfileRow where
  uuid : PlayerId
  name : String
  name_lc : String
  name_source : Option String
  name_checked_at : Option String
  last_seen : String
  deriving DecidableEq

/-- The local inputs of name resolution: the usercache map (names
already capped to 16 chars and non-empty, per `load_usercache`), the
profile metadata loaded from the DB, the pass timestamp and the
optional-column capabilities. -/
structure NameCfg where
  usercache : List (PlayerId × String)
  profiles : List (PlayerId × String × Option String × Option String)
  now_ts : String
  has_source : Bool
  has_checked : Bool

/-- Tiers 2 and 3 of the priority chain: last known DB name, then the
uuid-derived fallback. -/
def resolveFromMeta (nc : NameCfg) (u : PlayerId) : String × String × Option String :=
  match alookup nc.profiles u with
  | some m =>
      (m.1,
       (match m.2.1 with
        | some s => if s = "" then "unknown" else s
        | none => "unknown"),
       if nc.has_checked then m.2.2 else none)
  | none => (fallbackName u, "fallback", none)

/-- The full priority chain (lines 622-637); an empty usercache name is
falsy in Python and falls through. -/
def resolveName (nc : NameCfg) (u : PlayerId) : String × String × Option String :=
  match alookup nc.usercache u with
  | some n =>
      if n = "" then resolveFromMeta nc u
      else (n, "usercache", if nc.has_checked then some nc.now_ts else none)
  | none => resolveFromMeta nc u

/-! ### The pass over the stats directory -/

/-- Run configuration (CLI arguments after parsing, plus the run-start
schema introspection results). -/
structure Cfg where
  min_play_ticks : Int
  excluded : List PlayerId
  dry_run : Bool
  no_king : Bool
  king_metric_id : String
  king_points : List Int
  usercache : List (PlayerId × String)
  now_ts : String
  has_source : Bool
  has_checked : Bool

/-- The mutable state of the main loop.  The four buffer lists
accumulate every row the pass emits: batching only controls when rows
reach the DB, not which rows are written, and a run flushes everything
before cleanup (`flush_all`, line 694). -/
structure PassState where
  processed : Nat
  kept : Nat
  changed : Nat
  existing_hash : List (PlayerId × List Nat)
  seen : List PlayerId
  profile_rows : List ProfileRow
  changed_uuids : List PlayerId
  stats_rows : List (PlayerId × List Nat)
  metric_rows : List MetricRow

def initPass (hash0 : List (PlayerId × List Nat)) : PassState :=
  { processed := 0, kept := 0, changed := 0, existing_hash := hash0,
    seen := [], profile_rows := [], changed_uuids := [], stats_rows := [],
    metric_rows := [] }

/-- The body of the main loop (lines 582-686) for one stats file. -/
def processFile (cfg : Cfg) (nc : NameCfg) (ms : List (String × List MetricSource))
    (st : PassState) (f : InputFile) : PassState :=
  let st := { st with processed := st.processed + 1 }
  match f.uuidBin with
  | none => st
  | some u =>
    if u ∈ cfg.excluded then st
    else
      match f.doc with
      | none => st
      | some raw =>
        let stats := strip_wall_banners (extractStats raw)
        if play_time_of stats < cfg.min_play_ticks then st
        else
          let st := { st with kept := st.kept + 1 }
          let st := if cfg.dry_run then st else { st with seen := st.seen ++ [u] }
          let r := resolveName nc u
          let row : ProfileRow :=
            { uuid := u, name := r.1, name_lc := strToLower r.1,
              name_source := if nc.has_source then some r.2.1 else none,
              name_checked_at := if nc.has_source && nc.has_checked then r.2.2 else none,
              last_seen := nc.now_ts }
          let st := if cfg.dry_run then st
            else { st with profile_rows := st.profile_rows ++ [row] }
          let digest := sha1 (canonical_bytes stats)
          if alookup st.existing_hash u = some digest then st
          else
            let st := { st with changed := st.changed + 1,
                                existing_hash := aupdate st.existing_hash u digest }
            if cfg.dry_run then st
            else { st with changed_uuids := st.changed_uuids ++ [u],
                           stats_rows := st.stats_rows ++ [(u, digest)],
                           metric_rows := st.metric_rows ++ computeMetrics ms stats u }

def runPass (cfg : Cfg) (nc : NameCfg) (ms : List (String × List MetricSource))
    (hash0 : List (PlayerId × List Nat)) (files : List InputFile) : PassState :=
  files.foldl (processFile cfg nc ms) (initPass hash0)

/-! ### Persistent store and the full run -/

/-- The durable DB state the importer touches: the run bookkeeping
(`import_run` / `site_state`, summarised by `active_run_id`, an
AUTO_INCREMENT cursor and a commit counter `run_gen` that any committed
bookkeeping write bumps) and the three per-run player stores.
(`metric_def` seeding and the optional `metric_award` table are not
modelled; no claim concerns them.) -/
structure Db where
  active_run_id : Option Nat
  next_run_id : Nat
  run_gen : Nat
  profiles : List ProfileRow
  stats : List (PlayerId × List Nat)
  metrics : List MetricRow

/-- `ensure_run_id` (lines 139-160): creates and activates a run when
none is active, otherwise touches the existing run — both paths COMMIT a
write to the bookkeeping tables. -/
def ensure_run_id (db : Db) : Nat × Db :=
  match db.active_run_id with
  | none =>
      (db.next_run_id,
       { db with active_run_id := some db.next_run_id,
                 next_run_id := db.next_run_id + 1, run_gen := db.run_gen + 1 })
  | some r => (r, { db with run_gen := db.run_gen + 1 })

/-- `load_existing_hashes` (lines 184-191): only well-formed 20-byte
digests enter the in-memory map. -/
def load_existing_hashes (stats : List (PlayerId × List Nat)) :
    List (PlayerId × List Nat) :=
  stats.filter (fun e => decide (e.2.length = 20))

/-- `load_existing_profile_meta` (lines 194-227): skips empty names,
caps names at 16 chars, reads the optional columns only when present. -/
def load_existing_profile_meta (has_source has_checked : Bool)
    (rows : List ProfileRow) :
    List (PlayerId × String × Option String × Option String) :=
  rows.filterMap (fun r =>
    if r.name = "" then none
    else some (r.uuid, strTake16 r.name,
      (if has_source then r.name_source else none),
      (if has_checked then r.name_checked_at else none)))

/-- `INSERT ... ON DUPLICATE KEY UPDATE` on `player_profile`
(key: uuid within the single run). -/
def upsertProfile (store : List ProfileRow) (row : ProfileRow) : List ProfileRow :=
  if store.any (fun r => decide (r.uuid = row.uuid)) then
    store.map (fun r => if r.uuid = row.uuid then row else r)
  else store ++ [row]

def upsertStats (store : List (PlayerId × List Nat)) (row : PlayerId × List Nat) :
    List (PlayerId × List Nat) :=
  aupdate store row.1 row.2

/-- `INSERT ... ON DUPLICATE KEY UPDATE` on `metric_value`
(key: metric id × uuid within the single run). -/
def upsertMetric (store : List MetricRow) (row : MetricRow) : List MetricRow :=
  if store.any (fun r => decide (r.metric_id = row.metric_id ∧ r.uuid = row.uuid)) then
    store.map (fun r => if r.metric_id = row.metric_id ∧ r.uuid = row.uuid then row else r)
  else store ++ [row]

/-- The metric-delete half of `flush_changed_batch` (lines 423-430). -/
def deleteChangedMetrics (store : List MetricRow) (changed : List PlayerId) :
    List MetricRow :=
  store.filter (fun r => decide (r.uuid ∉ changed))

/-- Accumulated effect of all buffer flushes of one pass. -/
def applyPassWrites (db : Db) (p : PassState) : Db :=
  { db with
    profiles := p.profile_rows.foldl upsertProfile db.profiles,
    stats := p.stats_rows.foldl upsertStats db.stats,
    metrics := p.metric_rows.foldl upsertMetric
      (deleteChangedMetrics db.metrics p.changed_uuids) }

/-- The cleanup step (lines 697-722): anti-join delete against
`tmp_seen` on each of the three per-run stores. -/
def cleanupDb (seen : List PlayerId) (db : Db) : Db :=
  { db with
    profiles := db.profiles.filter (fun r => decide (r.uuid ∈ seen)),
    stats := db.stats.filter (fun e => decide (e.1 ∈ seen)),
    metrics := db.metrics.filter (fun r => decide (r.uuid ∈ seen)) }

/-! ### Server-König recompute (`recompute_king_points`, lines 297-356) -/

/-- Byte-wise lexicographic comparison of `BINARY(16)` uuids. -/
def bytesLe : List Nat → List Nat → Bool
  | [], _ => true
  | _ :: _, [] => false
  | x :: xs, y :: ys => if x < y then true else if y < x then false else bytesLe xs ys

/-- `ORDER BY value DESC, uuid ASC`. -/
def top3Le (x y : PlayerId × Int) : Bool :=
  decide (y.2 < x.2) || (decide (x.2 = y.2) && bytesLe x.1 y.1)

/-- `SELECT uuid, value FROM metric_value WHERE ... metric_id=%s AND
value>0 ORDER BY value DESC, uuid ASC LIMIT 3`. -/
def sql_top3 (store : List MetricRow) (mid : String) : List (PlayerId × Int) :=
  (sortByLe top3Le
    ((store.filter (fun r => decide (r.metric_id = mid) && decide (0 < r.value))).map
      (fun r => (r.uuid, r.value)))).take 3

/-- The per-metric award loop (lines 329-338): enumerate the top rows,
stop past the end of the points list, skip non-positive points. -/
def awardRanks (pts : List Int) (rows : List (PlayerId × Int)) : List (PlayerId × Int) :=
  (rows.zip pts).filterMap (fun e => if 0 < e.2 then some (e.1.1, e.2) else none)

/-- `points_map[u] = points_map.get(u, 0) + pts` (Python dict update:
existing key keeps its position, new key is appended). -/
def addPoints (m : List (PlayerId × Int)) (u : PlayerId) (p : Int) :
    List (PlayerId × Int) :=
  if m.any (fun e => decide (e.1 = u)) then
    m.map (fun e => if e.1 = u then (e.1, e.2 + p) else e)
  else m ++ [(u, p)]

def kingPointsMap (store : List MetricRow) (metric_ids : List String)
    (king_metric_id : String) (award_points : List Int) : List (PlayerId × Int) :=
  metric_ids.foldl (fun m mid =>
    if mid = king_metric_id then m
    else (awardRanks award_points (sql_top3 store mid)).foldl
      (fun m2 e => addPoints m2 e.1 e.2) m) []

/-- `recompute_king_points`: delete all composite-metric rows, then
rank every other metric against the remaining rows and insert one row
per player with strictly positive accumulated points. -/
def recompute_king_points (store : List MetricRow) (metric_ids : List String)
    (king_metric_id : String) (award_points : List Int) : List MetricRow :=
  let base := store.filter (fun r => decide (¬ r.metric_id = king_metric_id))
  base ++
    ((kingPointsMap base metric_ids king_metric_id award_points).filter
      (fun e => decide (0 < e.2))).map
      (fun e => { metric_id := king_metric_id, uuid := e.1, value := e.2 })

/-- `--king-points` post-processing (lines 727-731): empty list falls
back to 5/3/1, short lists are zero-padded, only ranks 1..3 are used. -/
def effective_king_points (l : List Int) : List Int :=
  (if l = [] then [5, 3, 1] else l) ++ [0, 0, 0] |>.take 3

/-- Outcome of one invocation of `main`: exit code, final DB state, and
the pass report (counters and accumulated writes, cf. line 688). -/
structure RunResult where
  exit_code : Int
  db : Db
  pass : PassState

/-- The name-resolution inputs assembled at run start (lines 523,
545-549). -/
def ncOf (cfg : Cfg) (db1 : Db) : NameCfg :=
  { usercache := cfg.usercache,
    profiles := load_existing_profile_meta cfg.has_source cfg.has_checked db1.profiles,
    now_ts := cfg.now_ts, has_source := cfg.has_source,
    has_checked := cfg.has_checked }

/-- `main` (lines 471-749) for a run that acquired the lock and found
the stats directory: run bookkeeping first (even in dry-run mode), then
the configuration checks, the pass, and — only for a non-dry run — the
flushes, the cleanup, the optional king recompute and the final
bookkeeping touch. -/
def main_run (cfg : Cfg) (ms : List (String × List MetricSource))
    (files : List InputFile) (db : Db) : RunResult :=
  let db1 := (ensure_run_id db).2
  if ms.isEmpty then { exit_code := 3, db := db1, pass := initPass [] }
  else
    let nc := ncOf cfg db1
    let p := runPass cfg nc ms (load_existing_hashes db1.stats) files
    if cfg.dry_run then { exit_code := 0, db := db1, pass := p }
    else
      let db2 := applyPassWrites db1 p
      let db3 := cleanupDb p.seen db2
      let db4 :=
        if cfg.no_king then db3
        else { db3 with
          metrics := recompute_king_points db3.metrics (ms.map Prod.fst)
            cfg.king_metric_id (effective_king_points cfg.king_points) }
      { exit_code := 0, db := { db4 with run_gen := db4.run_gen + 1 }, pass := p }

/-! ### Statement-side helpers -/

theorem foldl_add_eq_sum {α : Type} (f : α → Int) (l : List α) (init : Int) :
    l.foldl (fun acc s => acc + f s) init = init + (l.map f).sum := by
  induction l generalizing init with
  | nil => simp
  | cons x xs ih => simp [ih, add_assoc]

/-! ### Claim C3: cleanup completeness -/

/-- C3: after the cleanup step of a non-dry run, none of the three
per-run stores holds a row for a player absent from the pass's seen-set,
and no row of a seen player is deleted by cleanup. -/
theorem cleanup_reconciler_correct (seen : List PlayerId) (db : Db) :
    (∀ r ∈ (cleanupDb seen db).profiles, r.uuid ∈ seen) ∧
    (∀ e ∈ (cleanupDb seen db).stats, e.1 ∈ seen) ∧
    (∀ r ∈ (cleanupDb seen db).metrics, r.uuid ∈ seen) ∧
    (∀ r ∈ db.profiles, r.uuid ∈ seen → r ∈ (cleanupDb seen db).profiles) ∧
    (∀ e ∈ db.stats, e.1 ∈ seen → e ∈ (cleanupDb seen db).stats) ∧
    (∀ r ∈ db.metrics, r.uuid ∈ seen → r ∈ (cleanupDb seen db).metrics) := by
  refine ⟨?_, ?_, ?_, ?_, ?_, ?_⟩
  · intro r hr
    exact of_decide_eq_true (List.mem_filter.mp hr).2
  · intro e he
    exact of_decide_eq_true (List.mem_filter.mp he).2
  · intro r hr
    exact of_decide_eq_true (List.mem_filter.mp hr).2
  · intro r hr hs
    exact List.mem_filter.mpr ⟨hr, decide_eq_true hs⟩
  · intro e he hs
    exact List.mem_filter.mpr ⟨he, decide_eq_true hs⟩
  · intro r hr hs
    exact List.mem_filter.mpr ⟨hr, decide_eq_true hs⟩

theorem cleanup_reconciler_correct_witness :
    ({ uuid := [1], name := "a", name_lc := "a", name_source := none,
       name_checked_at := none, last_seen := "t" } : ProfileRow) ∈
      (cleanupDb [[1]]
        { active_run_id := some 1, next_run_id := 2, run_gen := 0,
          profiles := [{ uuid := [1], name := "a", name_lc := "a", name_source := none,
                         name_checked_at := none, last_seen := "t" },
                       { uuid := [2], name := "b", name_lc := "b", name_source := none,
                         name_checked_at := none, last_seen := "t" }],
          stats := [], metrics := [] }).profiles :=
  (cleanup_reconciler_correct [[1]] _).2.2.2.1 _ (by decide) (by decide)

/-! ### Claim C10: missing or malformed play time -/

/-- C10: a file whose tree lacks a `minecraft:custom` →
`minecraft:play_time` entry, or whose entry does not convert to an
integer, has its play time treated as 0; with a positive threshold the
player is not kept and the step leaves every part of the pass state
unchanged except the processed counter. -/
theorem missing_play_time_not_kept (cfg : Cfg) (nc : NameCfg)
    (ms : List (String × List MetricSource)) (st : PassState) (f : InputFile)
    (u : PlayerId) (raw : RawDoc)
    (hu : f.uuidBin = some u) (hex : u ∉ cfg.excluded) (hdoc : f.doc = some raw)
    (hbad : rawValueAt (strip_wall_banners (extractStats raw)) "minecraft:custom"
              "minecraft:play_time" = none ∨
            ∃ v, rawValueAt (strip_wall_banners (extractStats raw)) "minecraft:custom"
              "minecraft:play_time" = some v ∧ pyToInt v = none)
    (hpos : 0 < cfg.min_play_ticks) :
    play_time_of (strip_wall_banners (extractStats raw)) = 0 ∧
    processFile cfg nc ms st f = { st with processed := st.processed + 1 } := by
  set stats := strip_wall_banners (extractStats raw) with hstats
  have hpt : play_time_of stats = 0 := by
    unfold play_time_of
    rcases hbad with hb | ⟨w, hw, hwi⟩
    · rw [hb]
    · rw [hw]
      show (pyToInt w).getD 0 = 0
      rw [hwi]
      rfl
  refine ⟨hpt, ?_⟩
  unfold processFile
  rw [hu, hdoc]
  simp only [← hstats, hpt]
  have hlt : (0 : Int) < cfg.min_play_ticks := hpos
  simp [hex, hlt]

theorem missing_play_time_not_kept_witness :
    play_time_of (strip_wall_banners (extractStats
      (RawDoc.plain [("minecraft:custom", .dict [("minecraft:play_time", .str "soon")])]))) = 0 ∧
    processFile
      { min_play_ticks := 72000, excluded := [], dry_run := false, no_king := false,
        king_metric_id := "king", king_points := [], usercache := [], now_ts := "t",
        has_source := true, has_checked := true }
      { usercache := [], profiles := [], now_ts := "t", has_source := true, has_checked := true }
      [("m", [{ metric_id := "m", sectionName := "s", mc_key := "k", weight := 1 }])]
      (initPass [])
      { uuidBin := some [0, 0, 0, 0, 0, 0, 0, 0, 0, 0, 0, 0, 0, 0, 0, 7],
        doc := some (RawDoc.plain
          [("minecraft:custom", .dict [("minecraft:play_time", .str "soon")])]) } =
      { initPass [] with processed := 1 } :=
  missing_play_time_not_kept _ _ _ _ _ _ _ rfl (by decide) rfl
    (Or.inr ⟨.str "soon", by decide, by decide⟩) (by decide)

/-! ### Claim C8: per-source fault isolation in metric computation -/

/-- C8: a metric total is the sum of its sources' contributions; a
source whose section/key is missing or whose value does not convert
contributes exactly zero, a readable numeric source contributes
`value * weight`, and a metric row is emitted for a changed player iff
the total is positive — a bad source never drops the metric or the
player. -/
theorem metric_source_fault_isolation (stats : StatsTree)
    (srcs : List MetricSource) (src : MetricSource) (_hmem : src ∈ srcs) :
    metricTotal stats srcs = (srcs.map (sourceContribution stats)).sum ∧
    ((rawValueAt stats src.sectionName src.mc_key = none ∨
      ∃ v, rawValueAt stats src.sectionName src.mc_key = some v ∧ pyToInt v = none) →
      sourceContribution stats src = 0) ∧
    (∀ v n, rawValueAt stats src.sectionName src.mc_key = some v → pyToInt v = some n →
      sourceContribution stats src = n * src.weight) ∧
    (∀ (ms : List (String × List MetricSource)) (u : PlayerId) (mid : String),
      (mid, srcs) ∈ ms →
      (0 < metricTotal stats srcs ↔
        ({ metric_id := mid, uuid := u, value := metricTotal stats srcs } : MetricRow) ∈
          computeMetrics ms stats u)) := by
  refine ⟨by unfold metricTotal; rw [foldl_add_eq_sum, zero_add], ?_, ?_, ?_⟩
  · intro hbad
    unfold sourceContribution
    rcases hbad with hb | ⟨w, hw, hwi⟩
    · rw [hb]
    · rw [hw]
      show contribOf w src.weight = 0
      rcases w with n | s | b | _
      · simp [pyToInt] at hwi
      · simp only [pyToInt] at hwi
        show (match pyIntOfStr s with
              | some k => k * src.weight
              | none => 0 : Int) = 0
        rw [hwi]
      · simp [pyToInt] at hwi
      · rfl
  · intro v n hv hn
    unfold sourceContribution
    rw [hv]
    show contribOf v src.weight = n * src.weight
    rcases v with m | s | b | _
    · simp only [pyToInt] at hn
      obtain rfl : m = n := Option.some.inj hn
      rfl
    · simp only [pyToInt] at hn
      show (match pyIntOfStr s with
            | some k => k * src.weight
            | none => 0 : Int) = n * src.weight
      rw [hn]
    · simp only [pyToInt] at hn
      obtain rfl : (cond b 1 0 : Int) = n := Option.some.inj hn
      rfl
    · simp [pyToInt] at hn
  · intro ms u mid hms
    constructor
    · intro hpos
      unfold computeMetrics
      exact List.mem_filterMap.mpr ⟨(mid, srcs), hms, by simp [if_pos hpos]⟩
    · intro hrow
      obtain ⟨e, _, he⟩ := List.mem_filterMap.mp hrow
      by_cases hp : 0 < metricTotal stats e.2
      · rw [if_pos hp] at he
        have : metricTotal stats e.2 = metricTotal stats srcs := congrArg MetricRow.value (Option.some.inj he)
        rw [← this]
        exact hp
      · rw [if_neg hp] at he
        exact absurd he (by simp)

theorem metric_source_fault_isolation_witness :
    metricTotal [("s", .dict [("good", .num 4)])]
        [{ metric_id := "m", sectionName := "s", mc_key := "missing", weight := 9 },
         { metric_id := "m", sectionName := "s", mc_key := "good", weight := 3 }] =
      ([0, 12] : List Int).sum ∧
    sourceContribution [("s", .dict [("good", .num 4)])]
        { metric_id := "m", sectionName := "s", mc_key := "missing", weight := 9 } = 0 ∧
    ({ metric_id := "m", uuid := [5], value := 12 } : MetricRow) ∈
      computeMetrics
        [("m", [{ metric_id := "m", sectionName := "s", mc_key := "missing", weight := 9 },
                { metric_id := "m", sectionName := "s", mc_key := "good", weight := 3 }])]
        [("s", .dict [("good", .num 4)])] [5] := by
  have h := metric_source_fault_isolation [("s", .dict [("good", .num 4)])]
    [{ metric_id := "m", sectionName := "s", mc_key := "missing", weight := 9 },
     { metric_id := "m", sectionName := "s", mc_key := "good", weight := 3 }]
    { metric_id := "m", sectionName := "s", mc_key := "missing", weight := 9 }
    (by decide)
  refine ⟨by decide, h.2.1 (Or.inl (by decide)), ?_⟩
  have hmem := (h.2.2.2
    [("m", [{ metric_id := "m", sectionName := "s", mc_key := "missing", weight := 9 },
            { metric_id := "m", sectionName := "s", mc_key := "good", weight := 3 }])]
    [5] "m" (by decide)).mp (by decide)
  exact (by decide : metricTotal [("s", .dict [("good", .num 4)])]
    [{ metric_id := "m", sectionName := "s", mc_key := "missing", weight := 9 },
     { metric_id := "m", sectionName := "s", mc_key := "good", weight := 3 }] = 12) ▸ hmem

/-! ### Claim C5: no non-positive MetricValue row is ever persisted -/

theorem computeMetrics_pos (ms : List (String × List MetricSource))
    (stats : StatsTree) (u : PlayerId) :
    ∀ r ∈ computeMetrics ms stats u, 0 < r.value := by
  intro r hr
  obtain ⟨e, _, he⟩ := List.mem_filterMap.mp hr
  by_cases hp : 0 < metricTotal stats e.2
  · rw [if_pos hp] at he
    obtain rfl := Option.some.inj he
    exact hp
  · rw [if_neg hp] at he
    exact absurd he (by simp)

/-- One loop step either leaves the metric buffer alone or appends the
player's computed metric rows. -/
theorem processFile_metric_rows (cfg : Cfg) (nc : NameCfg)
    (ms : List (String × List MetricSource)) (st : PassState) (f : InputFile) :
    (processFile cfg nc ms st f).metric_rows = st.metric_rows ∨
    ∃ stats u, (processFile cfg nc ms st f).metric_rows =
      st.metric_rows ++ computeMetrics ms stats u := by
  unfold processFile
  rcases hub : f.uuidBin with _ | u
  · left; rfl
  · by_cases hex : u ∈ cfg.excluded
    · left; simp [hex]
    · rcases hdoc : f.doc with _ | raw
      · left; simp [hex]
      · by_cases hpt : play_time_of (strip_wall_banners (extractStats raw)) <
          cfg.min_play_ticks
        · left; simp [hex, hpt]
        · by_cases hdry : cfg.dry_run = true
          · left
            simp only [hex, hpt, hdry, if_false, if_true, ite_true, ite_false,
              if_neg, not_false_iff]
            split <;> simp [hdry]
          · have hdry2 : cfg.dry_run = false := by
              cases h : cfg.dry_run
              · rfl
              · exact absurd h hdry
            simp only [hex, hpt, hdry2, if_false, ite_false, Bool.false_eq_true,
              not_false_iff, if_neg]
            split
            · left; simp
            · right
              exact ⟨strip_wall_banners (extractStats raw), u, by simp⟩

theorem runPass_metric_rows_pos (cfg : Cfg) (nc : NameCfg)
    (ms : List (String × List MetricSource)) (hash0 : List (PlayerId × List Nat))
    (files : List InputFile) :
    ∀ r ∈ (runPass cfg nc ms hash0 files).metric_rows, 0 < r.value := by
  suffices h : ∀ (fs : List InputFile) (st : PassState),
      (∀ r ∈ st.metric_rows, 0 < r.value) →
      ∀ r ∈ (fs.foldl (processFile cfg nc ms) st).metric_rows, 0 < r.value by
    exact h files (initPass hash0) (by simp [initPass])
  intro fs
  induction fs with
  | nil => intro st hst; exact hst
  | cons f rest ih =>
    intro st hst
    apply ih
    rcases processFile_metric_rows cfg nc ms st f with h | ⟨stats, u, h⟩
    · rw [h]; exact hst
    · rw [h]
      intro r hr
      rcases List.mem_append.mp hr with h1 | h1
      · exact hst r h1
      · exact computeMetrics_pos ms stats u r h1

theorem upsertMetric_pos (store : List MetricRow) (row : MetricRow)
    (hs : ∀ r ∈ store, 0 < r.value) (hr : 0 < row.value) :
    ∀ r ∈ upsertMetric store row, 0 < r.value := by
  intro r hmem
  unfold upsertMetric at hmem
  split at hmem
  · obtain ⟨x, hx, hxe⟩ := List.mem_map.mp hmem
    by_cases hk : x.metric_id = row.metric_id ∧ x.uuid = row.uuid
    · rw [if_pos hk] at hxe
      rw [← hxe]; exact hr
    · rw [if_neg hk] at hxe
      rw [← hxe]; exact hs x hx
  · rcases List.mem_append.mp hmem with h1 | h1
    · exact hs r h1
    · rw [List.mem_singleton.mp h1]; exact hr

theorem foldl_upsertMetric_pos (rows : List MetricRow) :
    ∀ (store : List MetricRow), (∀ r ∈ store, 0 < r.value) →
    (∀ r ∈ rows, 0 < r.value) →
    ∀ r ∈ rows.foldl upsertMetric store, 0 < r.value := by
  induction rows with
  | nil => intro store hs _; exact hs
  | cons row rest ih =>
    intro store hs hrows
    exact ih (upsertMetric store row)
      (upsertMetric_pos store row hs (hrows row (List.mem_cons_self row rest)))
      (fun r hr => hrows r (List.mem_cons_of_mem row hr))

theorem recompute_king_pos (store : List MetricRow) (mids : List String)
    (kid : String) (pts : List Int) (hs : ∀ r ∈ store, 0 < r.value) :
    ∀ r ∈ recompute_king_points store mids kid pts, 0 < r.value := by
  intro r hr
  unfold recompute_king_points at hr
  rcases List.mem_append.mp hr with h1 | h1
  · exact hs r (List.mem_of_mem_filter h1)
  · obtain ⟨e, he, hee⟩ := List.mem_map.mp h1
    have := of_decide_eq_true (List.mem_filter.mp he).2
    rw [← hee]
    exact this

/-- C5: no operation of the pipeline persists a MetricValue row with a
non-positive value — if the store starts with only positive values, it
ends the run with only positive values, and every per-player metric row
the pass buffers for insertion is strictly positive. -/
theorem sparse_metric_invariant (cfg : Cfg) (ms : List (String × List MetricSource))
    (files : List InputFile) (db : Db) (h : ∀ r ∈ db.metrics, 0 < r.value) :
    (∀ r ∈ (main_run cfg ms files db).db.metrics, 0 < r.value) ∧
    (∀ r ∈ (main_run cfg ms files db).pass.metric_rows, 0 < r.value) := by
  have hens : (ensure_run_id db).2.metrics = db.metrics := by
    unfold ensure_run_id
    rcases db.active_run_id with _ | r <;> rfl
  unfold main_run
  by_cases hempty : ms.isEmpty
  · simp only [hempty, if_true, ite_true]
    exact ⟨by rw [hens]; exact h, by simp [initPass]⟩
  · simp only [hempty, if_false, ite_false, Bool.false_eq_true]
    set nc : NameCfg := ncOf cfg (ensure_run_id db).2 with hnc
    have hpassrows := runPass_metric_rows_pos cfg nc ms
      (load_existing_hashes (ensure_run_id db).2.stats) files
    by_cases hdry : cfg.dry_run = true
    · simp only [hdry, if_true, ite_true]
      exact ⟨by rw [hens]; exact h, hpassrows⟩
    · have hdry2 : cfg.dry_run = false := by
        cases hcd : cfg.dry_run
        · rfl
        · exact absurd hcd hdry
      simp only [hdry2, Bool.false_eq_true, if_false, ite_false]
      refine ⟨?_, hpassrows⟩
      have h2 : ∀ r ∈ (applyPassWrites (ensure_run_id db).2
          (runPass cfg nc ms (load_existing_hashes (ensure_run_id db).2.stats) files)).metrics,
          0 < r.value := by
        unfold applyPassWrites
        apply foldl_upsertMetric_pos
        · intro r hr
          rw [hens] at hr
          exact h r (List.mem_of_mem_filter hr)
        · exact hpassrows
      have h3 : ∀ r ∈ (cleanupDb
          (runPass cfg nc ms (load_existing_hashes (ensure_run_id db).2.stats) files).seen
          (applyPassWrites (ensure_run_id db).2
            (runPass cfg nc ms (load_existing_hashes (ensure_run_id db).2.stats) files))).metrics,
          0 < r.value := by
        unfold cleanupDb
        intro r hr
        exact h2 r (List.mem_of_mem_filter hr)
      by_cases hking : cfg.no_king
      · simp only [hking, if_true, ite_true]
        exact h3
      · simp only [hking, if_false, ite_false, Bool.false_eq_true]
        exact recompute_king_pos _ _ _ _ h3

theorem sparse_metric_invariant_witness :
    (0 : Int) < 7 :=
  (sparse_metric_invariant
    { min_play_ticks := 0, excluded := [], dry_run := true, no_king := false,
      king_metric_id := "king", king_points := [], usercache := [], now_ts := "t",
      has_source := true, has_checked := true }
    [("m", [{ metric_id := "m", sectionName := "s", mc_key := "k", weight := 1 }])]
    []
    { active_run_id := some 1, next_run_id := 2, run_gen := 0, profiles := [],
      stats := [], metrics := [{ metric_id := "m", uuid := [3], value := 7 }] }
    (by decide)).1
    { metric_id := "m", uuid := [3], value := 7 } (by decide)

/-! ### Claim C1: hash-skip correctness for one player -/

/-- C1: when the digest of a processed player's canonical bytes equals
the digest held in the in-memory map, the step writes no stats row and
no metric row, performs no metric computation (the changed counter and
the changed-uuid batch stay put) and leaves the digest map untouched,
while the player is still added to the seen-set and a profile row for
the player is still buffered for upsert. -/
theorem hash_skip_player (cfg : Cfg) (nc : NameCfg)
    (ms : List (String × List MetricSource)) (st : PassState) (f : InputFile)
    (u : PlayerId) (raw : RawDoc)
    (hu : f.uuidBin = some u) (hex : u ∉ cfg.excluded) (hdoc : f.doc = some raw)
    (hdry : cfg.dry_run = false)
    (hkept : ¬ play_time_of (strip_wall_banners (extractStats raw)) < cfg.min_play_ticks)
    (hmatch : alookup st.existing_hash u =
      some (sha1 (canonical_bytes (strip_wall_banners (extractStats raw))))) :
    (processFile cfg nc ms st f).stats_rows = st.stats_rows ∧
    (processFile cfg nc ms st f).metric_rows = st.metric_rows ∧
    (processFile cfg nc ms st f).changed = st.changed ∧
    (processFile cfg nc ms st f).changed_uuids = st.changed_uuids ∧
    (processFile cfg nc ms st f).existing_hash = st.existing_hash ∧
    (processFile cfg nc ms st f).seen = st.seen ++ [u] ∧
    (∃ row : ProfileRow, row.uuid = u ∧
      (processFile cfg nc ms st f).profile_rows = st.profile_rows ++ [row]) ∧
    (processFile cfg nc ms st f).kept = st.kept + 1 ∧
    (processFile cfg nc ms st f).processed = st.processed + 1 := by
  have hst : processFile cfg nc ms st f =
      { st with processed := st.processed + 1, kept := st.kept + 1,
                seen := st.seen ++ [u],
                profile_rows := st.profile_rows ++
                  [{ uuid := u, name := (resolveName nc u).1,
                     name_lc := strToLower (resolveName nc u).1,
                     name_source := if nc.has_source then some (resolveName nc u).2.1 else none,
                     name_checked_at := if nc.has_source && nc.has_checked
                       then (resolveName nc u).2.2 else none,
                     last_seen := nc.now_ts }] } := by
    unfold processFile
    rw [hu, hdoc]
    simp [hex, hkept, hdry, hmatch]
  rw [hst]
  refine ⟨rfl, rfl, rfl, rfl, rfl, rfl, ⟨_, rfl, rfl⟩, rfl, rfl⟩

theorem hash_skip_player_witness :
    (processFile
      { min_play_ticks := 0, excluded := [], dry_run := false, no_king := false,
        king_metric_id := "king", king_points := [], usercache := [], now_ts := "t",
        has_source := true, has_checked := true }
      { usercache := [], profiles := [], now_ts := "t", has_source := true,
        has_checked := true }
      [("m", [{ metric_id := "m", sectionName := "s", mc_key := "k", weight := 1 }])]
      (initPass [([0, 0, 0, 0, 0, 0, 0, 0, 0, 0, 0, 0, 0, 0, 0, 0],
        sha1 (canonical_bytes (strip_wall_banners
          (extractStats (RawDoc.plain [("s", .dict [("k", .num 5)])])))))])
      { uuidBin := some [0, 0, 0, 0, 0, 0, 0, 0, 0, 0, 0, 0, 0, 0, 0, 0],
        doc := some (RawDoc.plain [("s", .dict [("k", .num 5)])]) }).stats_rows = [] ∧
    (processFile
      { min_play_ticks := 0, excluded := [], dry_run := false, no_king := false,
        king_metric_id := "king", king_points := [], usercache := [], now_ts := "t",
        has_source := true, has_checked := true }
      { usercache := [], profiles := [], now_ts := "t", has_source := true,
        has_checked := true }
      [("m", [{ metric_id := "m", sectionName := "s", mc_key := "k", weight := 1 }])]
      (initPass [([0, 0, 0, 0, 0, 0, 0, 0, 0, 0, 0, 0, 0, 0, 0, 0],
        sha1 (canonical_bytes (strip_wall_banners
          (extractStats (RawDoc.plain [("s", .dict [("k", .num 5)])])))))])
      { uuidBin := some [0, 0, 0, 0, 0, 0, 0, 0, 0, 0, 0, 0, 0, 0, 0, 0],
        doc := some (RawDoc.plain [("s", .dict [("k", .num 5)])]) }).metric_rows = [] ∧
    (processFile
      { min_play_ticks := 0, excluded := [], dry_run := false, no_king := false,
        king_metric_id := "king", king_points := [], usercache := [], now_ts := "t",
        has_source := true, has_checked := true }
      { usercache := [], profiles := [], now_ts := "t", has_source := true,
        has_checked := true }
      [("m", [{ metric_id := "m", sectionName := "s", mc_key := "k", weight := 1 }])]
      (initPass [([0, 0, 0, 0, 0, 0, 0, 0, 0, 0, 0, 0, 0, 0, 0, 0],
        sha1 (canonical_bytes (strip_wall_banners
          (extractStats (RawDoc.plain [("s", .dict [("k", .num 5)])])))))])
      { uuidBin := some [0, 0, 0, 0, 0, 0, 0, 0, 0, 0, 0, 0, 0, 0, 0, 0],
        doc := some (RawDoc.plain [("s", .dict [("k", .num 5)])]) }).seen =
      [[0, 0, 0, 0, 0, 0, 0, 0, 0, 0, 0, 0, 0, 0, 0, 0]] := by
  have h := hash_skip_player
    { min_play_ticks := 0, excluded := [], dry_run := false, no_king := false,
      king_metric_id := "king", king_points := [], usercache := [], now_ts := "t",
      has_source := true, has_checked := true }
    { usercache := [], profiles := [], now_ts := "t", has_source := true,
      has_checked := true }
    [("m", [{ metric_id := "m", sectionName := "s", mc_key := "k", weight := 1 }])]
    (initPass [([0, 0, 0, 0, 0, 0, 0, 0, 0, 0, 0, 0, 0, 0, 0, 0],
      sha1 (canonical_bytes (strip_wall_banners
        (extractStats (RawDoc.plain [("s", .dict [("k", .num 5)])])))))])
    { uuidBin := some [0, 0, 0, 0, 0, 0, 0, 0, 0, 0, 0, 0, 0, 0, 0, 0],
      doc := some (RawDoc.plain [("s", .dict [("k", .num 5)])]) }
    [0, 0, 0, 0, 0, 0, 0, 0, 0, 0, 0, 0, 0, 0, 0, 0]
    (RawDoc.plain [("s", .dict [("k", .num 5)])])
    rfl (by decide) rfl rfl (by decide) rfl
  exact ⟨h.1, h.2.1, by simpa using h.2.2.2.2.2.1⟩

/-! ### Claim C6: dry-run mode still commits a bookkeeping write -/

/-- C6 (code bug): with `--dry-run` and an already-active run and no
input files, the player stores are indeed left unchanged, but the run
exits successfully having committed a bookkeeping write
(`ensure_run_id` runs before the dry-run check and issues
`UPDATE import_run SET generated_at=NOW() ... ; COMMIT`), contradicting
"issues no persistent writes". -/
theorem dry_run_touches_import_run :
    (main_run
      { min_play_ticks := 72000, excluded := [], dry_run := true, no_king := false,
        king_metric_id := "king", king_points := [], usercache := [], now_ts := "t",
        has_source := true, has_checked := true }
      [("m", [{ metric_id := "m", sectionName := "s", mc_key := "k", weight := 1 }])]
      []
      { active_run_id := some 1, next_run_id := 2, run_gen := 0,
        profiles := [], stats := [], metrics := [] }).exit_code = 0 ∧
    (main_run
      { min_play_ticks := 72000, excluded := [], dry_run := true, no_king := false,
        king_metric_id := "king", king_points := [], usercache := [], now_ts := "t",
        has_source := true, has_checked := true }
      [("m", [{ metric_id := "m", sectionName := "s", mc_key := "k", weight := 1 }])]
      []
      { active_run_id := some 1, next_run_id := 2, run_gen := 0,
        profiles := [], stats := [], metrics := [] }).db.profiles = [] ∧
    (main_run
      { min_play_ticks := 72000, excluded := [], dry_run := true, no_king := false,
        king_metric_id := "king", king_points := [], usercache := [], now_ts := "t",
        has_source := true, has_checked := true }
      [("m", [{ metric_id := "m", sectionName := "s", mc_key := "k", weight := 1 }])]
      []
      { active_run_id := some 1, next_run_id := 2, run_gen := 0,
        profiles := [], stats := [], metrics := [] }).db.stats = [] ∧
    (main_run
      { min_play_ticks := 72000, excluded := [], dry_run := true, no_king := false,
        king_metric_id := "king", king_points := [], usercache := [], now_ts := "t",
        has_source := true, has_checked := true }
      [("m", [{ metric_id := "m", sectionName := "s", mc_key := "k", weight := 1 }])]
      []
      { active_run_id := some 1, next_run_id := 2, run_gen := 0,
        profiles := [], stats := [], metrics := [] }).db.metrics = [] ∧
    (main_run
      { min_play_ticks := 72000, excluded := [], dry_run := true, no_king := false,
        king_metric_id := "king", king_points := [], usercache := [], now_ts := "t",
        has_source := true, has_checked := true }
      [("m", [{ metric_id := "m", sectionName := "s", mc_key := "k", weight := 1 }])]
      []
      { active_run_id := some 1, next_run_id := 2, run_gen := 0,
        profiles := [], stats := [], metrics := [] }).db.run_gen = 1 := by
  decide

/-! ### Claim C7: the synthesized fallback name -/

theorem hexDigitChar_inj : ∀ a < 16, ∀ b < 16,
    hexDigitChar a = hexDigitChar b → a = b := by decide

theorem byteHexChars_inj {a b : Nat} (ha : a < 256) (hb : b < 256)
    (h : byteHexChars a = byteHexChars b) : a = b := by
  unfold byteHexChars at h
  have h1 := List.cons.inj h
  have h2 := List.cons.inj h1.2
  have ha1 : a / 16 % 16 = b / 16 % 16 :=
    hexDigitChar_inj _ (Nat.mod_lt _ (by norm_num)) _ (Nat.mod_lt _ (by norm_num)) h1.1
  have ha2 : a % 16 = b % 16 :=
    hexDigitChar_inj _ (Nat.mod_lt _ (by norm_num)) _ (Nat.mod_lt _ (by norm_num)) h2.1
  have hda : a / 16 < 16 := Nat.div_lt_of_lt_mul (by omega)
  have hdb : b / 16 < 16 := Nat.div_lt_of_lt_mul (by omega)
  rw [Nat.mod_eq_of_lt hda, Nat.mod_eq_of_lt hdb] at ha1
  omega

theorem uuidHexChars_inj : ∀ (u v : List Nat), u.length = v.length →
    (∀ b ∈ u, b < 256) → (∀ b ∈ v, b < 256) →
    uuidHexChars u = uuidHexChars v → u = v := by
  intro u
  induction u with
  | nil =>
    intro v hl _ _ _
    exact (List.length_eq_zero.mp hl.symm).symm
  | cons a u ih =>
    intro v hl hu hv h
    cases v with
    | nil => simp at hl
    | cons b v =>
      unfold uuidHexChars at h
      simp only [List.map_cons, List.flatten_cons] at h
      have hlen : (byteHexChars a).length = (byteHexChars b).length := rfl
      obtain ⟨hhead, htail⟩ := List.append_inj h hlen
      have hab : a = b :=
        byteHexChars_inj (hu a (List.mem_cons_self a u)) (hv b (List.mem_cons_self b v)) hhead
      have htl : u = v := by
        apply ih v (by simpa using hl)
          (fun x hx => hu x (List.mem_cons_of_mem a hx))
          (fun x hx => hv x (List.mem_cons_of_mem b hx))
        exact htail
      rw [hab, htl]

theorem uuidHexChars_take : ∀ (k : Nat) (u : List Nat), k ≤ u.length →
    (uuidHexChars u).take (2 * k) = uuidHexChars (u.take k) := by
  intro k
  induction k with
  | zero => intro u _; simp [uuidHexChars]
  | succ k ih =>
    intro u hk
    cases u with
    | nil => simp at hk
    | cons b rest =>
      unfold uuidHexChars
      simp only [List.map_cons, List.flatten_cons, List.take_succ_cons]
      rw [List.take_append_eq_append_take]
      have hb2 : (byteHexChars b).length = 2 := rfl
      have h1 : (byteHexChars b).take (2 * (k + 1)) = byteHexChars b := by
        apply List.take_of_length_le
        rw [hb2]
        omega
      rw [h1, hb2]
      have h2 : 2 * (k + 1) - 2 = 2 * k := by omega
      rw [h2]
      have := ih rest (by simpa using hk)
      unfold uuidHexChars at this
      rw [this]

/-- C7 (amended): the fallback name is a deterministic function of the
player id, but it only reflects the first 6 bytes (12 hex chars) of the
16-byte id: two players in the fallback tier receive distinct names iff
their ids differ within the first 6 bytes. -/
theorem fallback_names_first6 (nc : NameCfg) (u1 u2 : PlayerId)
    (hl1 : u1.length = 16) (hl2 : u2.length = 16)
    (hb1 : ∀ b ∈ u1, b < 256) (hb2 : ∀ b ∈ u2, b < 256)
    (hc1 : alookup nc.usercache u1 = none) (hp1 : alookup nc.profiles u1 = none)
    (hc2 : alookup nc.usercache u2 = none) (hp2 : alookup nc.profiles u2 = none) :
    resolveName nc u1 = (fallbackName u1, "fallback", none) ∧
    resolveName nc u2 = (fallbackName u2, "fallback", none) ∧
    ((resolveName nc u1).1 = (resolveName nc u2).1 ↔ u1.take 6 = u2.take 6) := by
  have hr1 : resolveName nc u1 = (fallbackName u1, "fallback", none) := by
    unfold resolveName resolveFromMeta
    rw [hc1, hp1]
  have hr2 : resolveName nc u2 = (fallbackName u2, "fallback", none) := by
    unfold resolveName resolveFromMeta
    rw [hc2, hp2]
  refine ⟨hr1, hr2, ?_⟩
  rw [hr1, hr2]
  show fallbackName u1 = fallbackName u2 ↔ u1.take 6 = u2.take 6
  unfold fallbackName
  constructor
  · intro h
    have hchars : (uuidHexChars u1).take 12 = (uuidHexChars u2).take 12 := by
      have := congrArg String.data h
      simpa using this
    rw [show (12 : Nat) = 2 * 6 from rfl] at hchars
    rw [uuidHexChars_take 6 u1 (by omega), uuidHexChars_take 6 u2 (by omega)] at hchars
    exact uuidHexChars_inj _ _
      (by rw [List.length_take, List.length_take, hl1, hl2])
      (fun b hb => hb1 b (List.take_subset 6 u1 hb))
      (fun b hb => hb2 b (List.take_subset 6 u2 hb)) hchars
  · intro h
    have : (uuidHexChars u1).take (2 * 6) = (uuidHexChars u2).take (2 * 6) := by
      rw [uuidHexChars_take 6 u1 (by omega), uuidHexChars_take 6 u2 (by omega), h]
    rw [show (2 * 6 : Nat) = 12 from rfl] at this
    rw [this]

theorem fallback_names_first6_witness :
    (resolveName { usercache := [], profiles := [], now_ts := "t",
                   has_source := true, has_checked := true }
      [1, 0, 0, 0, 0, 0, 0, 0, 0, 0, 0, 0, 0, 0, 0, 0]).1 ≠
    (resolveName { usercache := [], profiles := [], now_ts := "t",
                   has_source := true, has_checked := true }
      [2, 0, 0, 0, 0, 0, 0, 0, 0, 0, 0, 0, 0, 0, 0, 0]).1 := by
  have h := fallback_names_first6
    { usercache := [], profiles := [], now_ts := "t", has_source := true,
      has_checked := true }
    [1, 0, 0, 0, 0, 0, 0, 0, 0, 0, 0, 0, 0, 0, 0, 0]
    [2, 0, 0, 0, 0, 0, 0, 0, 0, 0, 0, 0, 0, 0, 0, 0]
    rfl rfl (by decide) (by decide) rfl rfl rfl rfl
  intro heq
  exact absurd (h.2.2.mp heq) (by decide)

/-- C7 (counterexample to the claim as stated): two distinct player ids
agreeing on their first 6 bytes both fall through to the fallback tier
and receive the *same* synthesized name. -/
theorem fallback_name_collision :
    ([0, 0, 0, 0, 0, 0, 0, 0, 0, 0, 0, 0, 0, 0, 0, 0] : PlayerId) ≠
      [0, 0, 0, 0, 0, 0, 0, 0, 0, 0, 0, 0, 0, 0, 0, 1] ∧
    (resolveName { usercache := [], profiles := [], now_ts := "t",
                   has_source := true, has_checked := true }
      [0, 0, 0, 0, 0, 0, 0, 0, 0, 0, 0, 0, 0, 0, 0, 0]).2.1 = "fallback" ∧
    (resolveName { usercache := [], profiles := [], now_ts := "t",
                   has_source := true, has_checked := true }
      [0, 0, 0, 0, 0, 0, 0, 0, 0, 0, 0, 0, 0, 0, 0, 1]).2.1 = "fallback" ∧
    (resolveName { usercache := [], profiles := [], now_ts := "t",
                   has_source := true, has_checked := true }
      [0, 0, 0, 0, 0, 0, 0, 0, 0, 0, 0, 0, 0, 0, 0, 0]).1 =
    (resolveName { usercache := [], profiles := [], now_ts := "t",
                   has_source := true, has_checked := true }
      [0, 0, 0, 0, 0, 0, 0, 0, 0, 0, 0, 0, 0, 0, 0, 1]).1 := by
  decide

/-! ### Claim C2: canonicalization determinism -/

/-- Key-sort a section value (what the serializer's `sort_keys=True`
does to an inner object). -/
def canonSec : SecVal → SecVal
  | .dict kvs => .dict (sortPairs kvs)
  | .prim v => .prim v

def canonEntry (e : String × SecVal) : String × SecVal := (e.1, canonSec e.2)

/-- Render a section value whose dict entries are already in their
final order. -/
def serSecPre : SecVal → String
  | .dict kvs =>
      "\x7b" ++ String.intercalate ","
        (kvs.map (fun e => jsonStringLit e.1 ++ ":" ++ serJVal e.2)) ++ "\x7d"
  | .prim v => serJVal v

/-- "Identical key→value contents regardless of order" for one section:
equal scalars, or dict entry lists that are permutations of each other. -/
def secEquiv : SecVal → SecVal → Prop
  | .dict a, .dict b => a.Perm b
  | .prim v, .prim w => v = w
  | _, _ => False

instance instDecidableSecEquiv : ∀ a b : SecVal, Decidable (secEquiv a b)
  | .dict a, .dict b => inferInstanceAs (Decidable (a.Perm b))
  | .prim v, .prim w => inferInstanceAs (Decidable (v = w))
  | .dict _, .prim _ => isFalse (fun h => h)
  | .prim _, .dict _ => isFalse (fun h => h)

/-- A section value is well-formed when its dict keys are distinct
(Python dicts cannot hold duplicate keys). -/
def secNodupKeys : SecVal → Prop
  | .dict a => (a.map Prod.fst).Nodup
  | .prim _ => True

instance instDecidableSecNodupKeys : ∀ a : SecVal, Decidable (secNodupKeys a)
  | .dict a => inferInstanceAs (Decidable ((a.map Prod.fst).Nodup))
  | .prim _ => isTrue trivial

theorem keyLe_trans {α : Type} (a b c : String × α)
    (h1 : keyLe a b = true) (h2 : keyLe b c = true) : keyLe a c = true := by
  unfold keyLe at *
  exact decide_eq_true (le_trans (of_decide_eq_true h1) (of_decide_eq_true h2))

theorem keyLe_total {α : Type} (a b : String × α) :
    keyLe a b = true ∨ keyLe b a = true := by
  unfold keyLe
  rcases le_total a.1 b.1 with h | h
  · exact Or.inl (decide_eq_true h)
  · exact Or.inr (decide_eq_true h)

theorem sortPairs_perm {α : Type} (l : List (String × α)) : (sortPairs l).Perm l :=
  sortByLe_perm keyLe l

theorem sortPairs_strict {α : Type} (l : List (String × α))
    (h : (l.map Prod.fst).Nodup) :
    (sortPairs l).Pairwise (fun x y => x.1 < y.1) := by
  have hle : (sortPairs l).Pairwise (fun x y => keyLe x y = true) :=
    sortByLe_pairwise keyLe_trans keyLe_total l
  have hperm : ((sortPairs l).map Prod.fst).Perm (l.map Prod.fst) :=
    (sortPairs_perm l).map Prod.fst
  have hnd : ((sortPairs l).map Prod.fst).Nodup := (hperm.nodup_iff).mpr h
  have hne : (sortPairs l).Pairwise (fun x y => x.1 ≠ y.1) :=
    (List.pairwise_map.mp hnd)
  refine (hle.and hne).imp ?_
  intro a b hab
  exact lt_of_le_of_ne (of_decide_eq_true hab.1) hab.2

/-- Sorting two permuted key-nodup association lists gives the same
list (the strict key order is antisymmetric). -/
theorem eq_sortPairs_of_perm {α : Type} {a b : List (String × α)}
    (hnd : (a.map Prod.fst).Nodup) (hperm : a.Perm b) :
    sortPairs a = sortPairs b := by
  have hndb : (b.map Prod.fst).Nodup := ((hperm.map Prod.fst).nodup_iff).mp hnd
  haveI : IsAntisymm (String × α) (fun x y => x.1 < y.1) :=
    ⟨fun x y h1 h2 => absurd h2 (not_lt_of_gt h1)⟩
  exact List.eq_of_perm_of_sorted
    ((sortPairs_perm a).trans (hperm.trans (sortPairs_perm b).symm))
    (sortPairs_strict a hnd) (sortPairs_strict b hndb)

theorem map_insertLe {α β : Type} (f : (String × α) → (String × β))
    (hf : ∀ e, (f e).1 = e.1) (x : String × α) (l : List (String × α)) :
    (insertLe keyLe x l).map f = insertLe keyLe (f x) (l.map f) := by
  induction l with
  | nil => rfl
  | cons y ys ih =>
    have hk : keyLe (f x) (f y) = keyLe x y := by
      unfold keyLe
      rw [hf x, hf y]
    by_cases h : keyLe x y = true
    · simp [insertLe, h, hk]
    · have h2 : ¬ keyLe (f x) (f y) = true := by rw [hk]; exact h
      simp [insertLe, h, h2, ih]

theorem map_sortPairs {α β : Type} (f : (String × α) → (String × β))
    (hf : ∀ e, (f e).1 = e.1) (l : List (String × α)) :
    (sortPairs l).map f = sortPairs (l.map f) := by
  induction l with
  | nil => rfl
  | cons x xs ih =>
    have h1 : sortPairs (List.map f (x :: xs)) =
        insertLe keyLe (f x) (sortPairs (List.map f xs)) := rfl
    have h2 : sortPairs (x :: xs) = insertLe keyLe x (sortPairs xs) := rfl
    rw [h1, h2, ← ih]
    exact map_insertLe f hf x (sortPairs xs)

theorem canonSec_eq_of_equiv {a b : SecVal} (ha : secNodupKeys a)
    (h : secEquiv a b) : canonSec a = canonSec b := by
  cases a with
  | dict x =>
    cases b with
    | dict y =>
      have hperm : x.Perm y := h
      show SecVal.dict (sortPairs x) = SecVal.dict (sortPairs y)
      rw [eq_sortPairs_of_perm (ha : (x.map Prod.fst).Nodup) hperm]
    | prim w => exact absurd h (fun hf => hf)
  | prim v =>
    cases b with
    | dict y => exact absurd h (fun hf => hf)
    | prim w =>
      have hvw : v = w := h
      show SecVal.prim v = SecVal.prim w
      rw [hvw]

theorem canonical_json_via_canon (t : StatsTree) :
    canonical_json t =
      "\x7b" ++ String.intercalate ","
        ((sortPairs (t.map canonEntry)).map
          (fun e => jsonStringLit e.1 ++ ":" ++ serSecPre e.2)) ++ "\x7d" := by
  unfold canonical_json
  have h1 : (sortPairs (t.map canonEntry)).map
      (fun e => jsonStringLit e.1 ++ ":" ++ serSecPre e.2) =
      (sortPairs t).map (fun e => jsonStringLit e.1 ++ ":" ++ serSec e.2) := by
    rw [← map_sortPairs canonEntry (fun e => rfl) t, List.map_map]
    apply List.map_congr_left
    intro e _
    obtain ⟨k, v⟩ := e
    cases v with
    | dict kvs => rfl
    | prim w => rfl
  rw [h1]

/-- C2: two stat trees with identical section→key→value contents —
same sections up to order, each section's entries equal up to order —
canonicalize to identical JSON text, identical bytes, and therefore
identical 20-byte digests. -/
theorem canonicalization_deterministic (t1 t2 : StatsTree)
    (hnd1 : (t1.map Prod.fst).Nodup) (hnd2 : (t2.map Prod.fst).Nodup)
    (hin1 : ∀ e ∈ t1, secNodupKeys e.2) (_hin2 : ∀ e ∈ t2, secNodupKeys e.2)
    (h12 : ∀ e ∈ t1, ∃ f ∈ t2, e.1 = f.1 ∧ secEquiv e.2 f.2)
    (h21 : ∀ e ∈ t2, ∃ f ∈ t1, e.1 = f.1 ∧ secEquiv e.2 f.2) :
    canonical_json t1 = canonical_json t2 ∧
    canonical_bytes t1 = canonical_bytes t2 ∧
    sha1 (canonical_bytes t1) = sha1 (canonical_bytes t2) := by
  have hsec : ∀ {a b : SecVal}, secNodupKeys a → secEquiv a b → secEquiv b a := by
    intro a b ha h
    cases a with
    | dict x =>
      cases b with
      | dict y => exact (show x.Perm y from h).symm
      | prim w => exact absurd h (fun hf => hf)
    | prim v =>
      cases b with
      | dict y => exact absurd h (fun hf => hf)
      | prim w => exact (show v = w from h).symm
  have hkey : ∀ (t : StatsTree), (t.map Prod.fst).Nodup → (t.map canonEntry).Nodup := by
    intro t hnd
    have : (t.map canonEntry).map Prod.fst = t.map Prod.fst := by
      rw [List.map_map]
      rfl
    exact List.Nodup.of_map Prod.fst (by rw [this]; exact hnd)
  have hsub12 : t1.map canonEntry ⊆ t2.map canonEntry := by
    intro e he
    obtain ⟨e0, he0, rfl⟩ := List.mem_map.mp he
    obtain ⟨f0, hf0, hk, heq⟩ := h12 e0 he0
    have : canonEntry f0 = canonEntry e0 := by
      unfold canonEntry
      rw [← hk, canonSec_eq_of_equiv (hin1 e0 he0) heq]
    rw [← this]
    exact List.mem_map.mpr ⟨f0, hf0, rfl⟩
  have hsub21 : t2.map canonEntry ⊆ t1.map canonEntry := by
    intro e he
    obtain ⟨e0, he0, rfl⟩ := List.mem_map.mp he
    obtain ⟨f0, hf0, hk, heq⟩ := h21 e0 he0
    have : canonEntry f0 = canonEntry e0 := by
      unfold canonEntry
      rw [← hk, canonSec_eq_of_equiv (hin1 f0 hf0) (hsec (_hin2 e0 he0) heq)]
    rw [← this]
    exact List.mem_map.mpr ⟨f0, hf0, rfl⟩
  have hperm : (t1.map canonEntry).Perm (t2.map canonEntry) :=
    (List.subperm_of_subset (hkey t1 hnd1) hsub12).antisymm
      (List.subperm_of_subset (hkey t2 hnd2) hsub21)
  have hkeys1 : ((t1.map canonEntry).map Prod.fst).Nodup := by
    have : (t1.map canonEntry).map Prod.fst = t1.map Prod.fst := by
      rw [List.map_map]; rfl
    rw [this]; exact hnd1
  have hsorted : sortPairs (t1.map canonEntry) = sortPairs (t2.map canonEntry) :=
    eq_sortPairs_of_perm hkeys1 hperm
  have hjson : canonical_json t1 = canonical_json t2 := by
    rw [canonical_json_via_canon, canonical_json_via_canon, hsorted]
  exact ⟨hjson, by unfold canonical_bytes; rw [hjson],
    by unfold canonical_bytes; rw [hjson]⟩

theorem canonicalization_deterministic_witness :
    canonical_json [("b", .dict [("y", .num 2), ("x", .num 1)]), ("a", .prim .null)] =
      canonical_json [("a", .prim .null), ("b", .dict [("x", .num 1), ("y", .num 2)])] ∧
    canonical_bytes [("b", .dict [("y", .num 2), ("x", .num 1)]), ("a", .prim .null)] =
      canonical_bytes [("a", .prim .null), ("b", .dict [("x", .num 1), ("y", .num 2)])] ∧
    sha1 (canonical_bytes [("b", .dict [("y", .num 2), ("x", .num 1)]), ("a", .prim .null)]) =
      sha1 (canonical_bytes [("a", .prim .null), ("b", .dict [("x", .num 1), ("y", .num 2)])]) :=
  canonicalization_deterministic
    [("b", .dict [("y", .num 2), ("x", .num 1)]), ("a", .prim .null)]
    [("a", .prim .null), ("b", .dict [("x", .num 1), ("y", .num 2)])]
    (by decide) (by decide) (by decide) (by decide) (by decide) (by decide)

/-! ### Claim C4: composite leaderboard recompute -/

theorem bytesLe_total : ∀ a b : List Nat, bytesLe a b = true ∨ bytesLe b a = true := by
  intro a
  induction a with
  | nil => intro b; left; rfl
  | cons x xs ih =>
    intro b
    cases b with
    | nil => right; rfl
    | cons y ys =>
      unfold bytesLe
      rcases Nat.lt_trichotomy x y with h | h | h
      · left; simp [h]
      · subst h
        simp only [lt_irrefl, if_false, ite_false]
        exact ih ys
      · right; simp [h, Nat.not_lt_of_gt h]

theorem bytesLe_antisymm : ∀ a b : List Nat,
    bytesLe a b = true → bytesLe b a = true → a = b := by
  intro a
  induction a with
  | nil =>
    intro b _ hba
    cases b with
    | nil => rfl
    | cons y ys => simp [bytesLe] at hba
  | cons x xs ih =>
    intro b hab hba
    cases b with
    | nil => simp [bytesLe] at hab
    | cons y ys =>
      unfold bytesLe at hab hba
      rcases Nat.lt_trichotomy x y with h | h | h
      · rw [if_neg (Nat.not_lt_of_gt h), if_pos h] at hba
        exact absurd hba (by simp)
      · subst h
        simp only [lt_irrefl, if_false, ite_false] at hab hba
        rw [ih ys hab hba]
      · rw [if_neg (Nat.not_lt_of_gt h), if_pos h] at hab
        exact absurd hab (by simp)

theorem bytesLe_trans : ∀ a b c : List Nat,
    bytesLe a b = true → bytesLe b c = true → bytesLe a c = true := by
  intro a
  induction a with
  | nil => intro b c _ _; rfl
  | cons x xs ih =>
    intro b c hab hbc
    cases b with
    | nil => simp [bytesLe] at hab
    | cons y ys =>
      cases c with
      | nil => simp [bytesLe] at hbc
      | cons z zs =>
        unfold bytesLe at hab hbc ⊢
        rcases Nat.lt_trichotomy x y with h1 | h1 | h1
        · rcases Nat.lt_trichotomy y z with h2 | h2 | h2
          · simp [Nat.lt_trans h1 h2]
          · subst h2; simp [h1]
          · rw [if_neg (Nat.not_lt_of_gt h2), if_pos h2] at hbc
            exact absurd hbc (by simp)
        · subst h1
          rcases Nat.lt_trichotomy x z with h2 | h2 | h2
          · simp [h2]
          · subst h2
            simp only [lt_irrefl, if_false, ite_false] at hab hbc ⊢
            exact ih ys zs hab hbc
          · rw [if_neg (Nat.not_lt_of_gt h2), if_pos h2] at hbc
            exact absurd hbc (by simp)
        · rw [if_neg (Nat.not_lt_of_gt h1), if_pos h1] at hab
          exact absurd hab (by simp)

theorem top3Le_total : ∀ a b : PlayerId × Int, top3Le a b = true ∨ top3Le b a = true := by
  intro a b
  unfold top3Le
  rcases lt_trichotomy a.2 b.2 with h | h | h
  · right; simp [h]
  · rcases bytesLe_total a.1 b.1 with hb | hb
    · left; simp [h, hb]
    · right; simp [h.symm, hb]
  · left; simp [h]

theorem top3Le_trans : ∀ a b c : PlayerId × Int,
    top3Le a b = true → top3Le b c = true → top3Le a c = true := by
  intro a b c hab hbc
  unfold top3Le at hab hbc ⊢
  simp only [Bool.or_eq_true, Bool.and_eq_true, decide_eq_true_eq] at hab hbc ⊢
  rcases hab with h1 | ⟨h1, hb1⟩
  · rcases hbc with h2 | ⟨h2, _⟩
    · exact Or.inl (lt_trans h2 h1)
    · exact Or.inl (h2 ▸ h1)
  · rcases hbc with h2 | ⟨h2, hb2⟩
    · exact Or.inl (by rw [h1]; exact h2)
    · exact Or.inr ⟨h1.trans h2, bytesLe_trans _ _ _ hb1 hb2⟩

theorem top3Le_antisymm : ∀ a b : PlayerId × Int,
    top3Le a b = true → top3Le b a = true → a = b := by
  intro a b hab hba
  unfold top3Le at hab hba
  simp only [Bool.or_eq_true, Bool.and_eq_true, decide_eq_true_eq] at hab hba
  rcases hab with h1 | ⟨h1, hb1⟩
  · rcases hba with h2 | ⟨h2, _⟩
    · exact absurd h2 (not_lt_of_gt h1)
    · exact absurd h1 (by rw [h2]; exact lt_irrefl _)
  · rcases hba with h2 | ⟨_, hb2⟩
    · exact absurd h2 (by rw [h1]; exact lt_irrefl _)
    · exact Prod.ext (bytesLe_antisymm _ _ hb1 hb2) h1

/-- The SQL top-3 query result depends only on the row multiset:
reading the rows in any order yields the same ranked list. -/
theorem sql_top3_perm_invariant {s1 s2 : List MetricRow} (h : s1.Perm s2)
    (mid : String) : sql_top3 s1 mid = sql_top3 s2 mid := by
  unfold sql_top3
  haveI : IsAntisymm (PlayerId × Int) (fun x y => top3Le x y = true) :=
    ⟨top3Le_antisymm⟩
  have hperm : (sortByLe top3Le
      ((s1.filter (fun r => decide (r.metric_id = mid) && decide (0 < r.value))).map
        (fun r => (r.uuid, r.value)))).Perm
      (sortByLe top3Le
        ((s2.filter (fun r => decide (r.metric_id = mid) && decide (0 < r.value))).map
          (fun r => (r.uuid, r.value)))) := by
    refine (sortByLe_perm _ _).trans (List.Perm.trans ?_ (sortByLe_perm _ _).symm)
    exact (h.filter _).map _
  rw [List.eq_of_perm_of_sorted hperm
    (sortByLe_pairwise top3Le_trans top3Le_total _)
    (sortByLe_pairwise top3Le_trans top3Le_total _)]

/-! Accumulated points: the fold over `addPoints` computes, for each
player, the sum of that player's rank awards across all metrics. -/

def lookupTotal (m : List (PlayerId × Int)) (u : PlayerId) : Int :=
  (alookup m u).getD 0

/-- Total points awarded to `u` by one metric's ranked list. -/
def awardOf (pts : List Int) (rows : List (PlayerId × Int)) (u : PlayerId) : Int :=
  ((awardRanks pts rows).filterMap
    (fun e => if e.1 = u then some e.2 else none)).sum

/-- Specification-side total: the sum over every other enabled metric of
the points `u`'s rank earns, all against the store with the composite
rows already deleted. -/
def king_total (store : List MetricRow) (mids : List String) (kid : String)
    (pts : List Int) (u : PlayerId) : Int :=
  (mids.map (fun mid =>
    if mid = kid then 0
    else awardOf pts
      (sql_top3 (store.filter (fun r => decide (¬ r.metric_id = kid))) mid) u)).sum

theorem alookup_map_adjust_ne {κ β : Type} [DecidableEq κ]
    (m : List (κ × β)) (k : κ) (g : β → β) {q : κ} (hq : ¬ q = k) :
    alookup (m.map (fun e => if e.1 = k then (e.1, g e.2) else e)) q = alookup m q := by
  induction m with
  | nil => rfl
  | cons e rest ih =>
    have hfst : (if e.1 = k then (e.1, g e.2) else e).1 = e.1 := by
      by_cases h : e.1 = k <;> simp [h]
    by_cases h : q = e.1
    · have hsnd : (if e.1 = k then (e.1, g e.2) else e).2 = e.2 := by
        have : ¬ e.1 = k := fun he => hq (h.trans he)
        simp [this]
      simp [alookup, hfst, hsnd, h]
    · simp [alookup, hfst, h, ih]

theorem alookup_map_adjust_self {κ β : Type} [DecidableEq κ]
    (m : List (κ × β)) (k : κ) (g : β → β) :
    alookup (m.map (fun e => if e.1 = k then (e.1, g e.2) else e)) k =
      (alookup m k).map g := by
  induction m with
  | nil => rfl
  | cons e rest ih =>
    by_cases h : k = e.1
    · have he : e.1 = k := h.symm
      rw [List.map_cons, if_pos he]
      simp [alookup, h]
    · have he : ¬ e.1 = k := fun hek => h hek.symm
      rw [List.map_cons, if_neg he]
      simp [alookup, h, ih]

theorem addPoints_lookupTotal (m : List (PlayerId × Int)) (v : PlayerId) (p : Int)
    (u : PlayerId) :
    lookupTotal (addPoints m v p) u = lookupTotal m u + (if u = v then p else 0) := by
  unfold addPoints lookupTotal
  by_cases hany : m.any (fun e => decide (e.1 = v)) = true
  · rw [if_pos hany]
    by_cases hu : u = v
    · subst hu
      rw [alookup_map_adjust_self m u (fun w => w + p)]
      obtain ⟨e, he, hek⟩ := List.any_eq_true.mp hany
      have hek2 : e.1 = u := of_decide_eq_true hek
      cases h : alookup m u with
      | none =>
        have hno : u ∉ m.map Prod.fst := (alookup_eq_none_iff m u).mp h
        exact absurd (List.mem_map.mpr ⟨e, he, hek2⟩) hno
      | some w => simp
    · rw [alookup_map_adjust_ne m v (fun w => w + p) hu]
      simp [hu]
  · rw [if_neg hany]
    rw [alookup_append]
    by_cases hu : u = v
    · subst hu
      have hnone : alookup m u = none := by
        apply alookup_eq_none_of_not_mem_keys
        intro e he hk
        exact hany (List.any_eq_true.mpr ⟨e, he, by simp [← hk]⟩)
      rw [hnone]
      simp [alookup]
    · cases h : alookup m u with
      | none => simp [alookup, hu]
      | some w => simp [hu]

theorem addPoints_keys_nodup (m : List (PlayerId × Int)) (v : PlayerId) (p : Int)
    (h : (m.map Prod.fst).Nodup) : ((addPoints m v p).map Prod.fst).Nodup := by
  unfold addPoints
  by_cases hany : m.any (fun e => decide (e.1 = v)) = true
  · rw [if_pos hany]
    have : (m.map (fun e => if e.1 = v then (e.1, e.2 + p) else e)).map Prod.fst =
        m.map Prod.fst := by
      rw [List.map_map]
      apply List.map_congr_left
      intro e _
      by_cases he : e.1 = v <;> simp [he]
    rw [this]
    exact h
  · rw [if_neg hany]
    rw [List.map_append]
    simp only [List.map_cons, List.map_nil]
    rw [List.nodup_append]
    refine ⟨h, List.nodup_singleton v, ?_⟩
    intro x hx hv
    rw [List.mem_singleton.mp hv] at hx
    obtain ⟨e, he, hek⟩ := List.mem_map.mp hx
    exact hany (List.any_eq_true.mpr ⟨e, he, by simp [hek]⟩)

theorem addPoints_pos (m : List (PlayerId × Int)) (v : PlayerId) (p : Int)
    (hm : ∀ e ∈ m, 0 < e.2) (hp : 0 < p) : ∀ e ∈ addPoints m v p, 0 < e.2 := by
  intro e he
  unfold addPoints at he
  split at he
  · obtain ⟨x, hx, hxe⟩ := List.mem_map.mp he
    by_cases hk : x.1 = v
    · rw [if_pos hk] at hxe
      rw [← hxe]
      exact add_pos (hm x hx) hp
    · rw [if_neg hk] at hxe
      rw [← hxe]
      exact hm x hx
  · rcases List.mem_append.mp he with h1 | h1
    · exact hm e h1
    · rw [List.mem_singleton.mp h1]
      exact hp

theorem awardRanks_pos (pts : List Int) (rows : List (PlayerId × Int)) :
    ∀ e ∈ awardRanks pts rows, 0 < e.2 := by
  intro e he
  obtain ⟨x, _, hx⟩ := List.mem_filterMap.mp he
  by_cases hp : 0 < x.2
  · rw [if_pos hp] at hx
    obtain rfl := Option.some.inj hx
    exact hp
  · rw [if_neg hp] at hx
    exact absurd hx (by simp)

theorem foldl_addPoints_lookupTotal (L : List (PlayerId × Int)) :
    ∀ (acc : List (PlayerId × Int)) (u : PlayerId),
    lookupTotal (L.foldl (fun m e => addPoints m e.1 e.2) acc) u =
      lookupTotal acc u + (L.filterMap (fun e => if e.1 = u then some e.2 else none)).sum := by
  induction L with
  | nil => intro acc u; simp
  | cons x rest ih =>
    intro acc u
    rw [List.foldl_cons, ih]
    rw [addPoints_lookupTotal]
    by_cases hu : u = x.1
    · have hx : x.1 = u := hu.symm
      simp [List.filterMap_cons, hx]
      ring
    · have hx : ¬ x.1 = u := fun h => hu h.symm
      simp [List.filterMap_cons, hx, hu]

theorem foldl_addPoints_keys_nodup (L : List (PlayerId × Int)) :
    ∀ (acc : List (PlayerId × Int)), ((acc.map Prod.fst).Nodup) →
    (((L.foldl (fun m e => addPoints m e.1 e.2) acc).map Prod.fst).Nodup) := by
  induction L with
  | nil => intro acc h; exact h
  | cons x rest ih =>
    intro acc h
    exact ih _ (addPoints_keys_nodup acc x.1 x.2 h)

theorem foldl_addPoints_pos (L : List (PlayerId × Int)) (hL : ∀ e ∈ L, 0 < e.2) :
    ∀ (acc : List (PlayerId × Int)), (∀ e ∈ acc, 0 < e.2) →
    ∀ e ∈ L.foldl (fun m e => addPoints m e.1 e.2) acc, 0 < e.2 := by
  induction L with
  | nil => intro acc h; exact h
  | cons x rest ih =>
    intro acc h
    exact ih (fun e he => hL e (List.mem_cons_of_mem x he)) _
      (addPoints_pos acc x.1 x.2 h (hL x (List.mem_cons_self x rest)))

theorem kingPointsMap_lookupTotal (base : List MetricRow) (mids : List String)
    (kid : String) (pts : List Int) (u : PlayerId) :
    lookupTotal (kingPointsMap base mids kid pts) u =
      (mids.map (fun mid =>
        if mid = kid then 0 else awardOf pts (sql_top3 base mid) u)).sum := by
  unfold kingPointsMap
  suffices h : ∀ (acc : List (PlayerId × Int)),
      lookupTotal (mids.foldl (fun m mid =>
        if mid = kid then m
        else (awardRanks pts (sql_top3 base mid)).foldl
          (fun m2 e => addPoints m2 e.1 e.2) m) acc) u =
      lookupTotal acc u +
        (mids.map (fun mid =>
          if mid = kid then 0 else awardOf pts (sql_top3 base mid) u)).sum by
    rw [h []]
    simp [lookupTotal, alookup]
  induction mids with
  | nil => intro acc; simp
  | cons mid rest ih =>
    intro acc
    rw [List.foldl_cons, ih, List.map_cons, List.sum_cons]
    by_cases hm : mid = kid
    · rw [if_pos hm, if_pos hm]
      ring
    · rw [if_neg hm, if_neg hm]
      rw [foldl_addPoints_lookupTotal]
      unfold awardOf
      ring

theorem kingPointsMap_keys_nodup (base : List MetricRow) (mids : List String)
    (kid : String) (pts : List Int) :
    (((kingPointsMap base mids kid pts)).map Prod.fst).Nodup := by
  unfold kingPointsMap
  suffices h : ∀ (acc : List (PlayerId × Int)), ((acc.map Prod.fst).Nodup) →
      (((mids.foldl (fun m mid =>
        if mid = kid then m
        else (awardRanks pts (sql_top3 base mid)).foldl
          (fun m2 e => addPoints m2 e.1 e.2) m) acc).map Prod.fst).Nodup) by
    exact h [] (by simp)
  induction mids with
  | nil => intro acc h; exact h
  | cons mid rest ih =>
    intro acc h
    rw [List.foldl_cons]
    by_cases hm : mid = kid
    · rw [if_pos hm]
      exact ih acc h
    · rw [if_neg hm]
      exact ih _ (foldl_addPoints_keys_nodup _ acc h)

theorem kingPointsMap_pos (base : List MetricRow) (mids : List String)
    (kid : String) (pts : List Int) :
    ∀ e ∈ kingPointsMap base mids kid pts, 0 < e.2 := by
  unfold kingPointsMap
  suffices h : ∀ (acc : List (PlayerId × Int)), (∀ e ∈ acc, 0 < e.2) →
      ∀ e ∈ mids.foldl (fun m mid =>
        if mid = kid then m
        else (awardRanks pts (sql_top3 base mid)).foldl
          (fun m2 e => addPoints m2 e.1 e.2) m) acc, 0 < e.2 by
    exact h [] (by simp)
  induction mids with
  | nil => intro acc h; exact h
  | cons mid rest ih =>
    intro acc h
    rw [List.foldl_cons]
    by_cases hm : mid = kid
    · rw [if_pos hm]
      exact ih acc h
    · rw [if_neg hm]
      exact ih _ (foldl_addPoints_pos _ (awardRanks_pos pts _) acc h)

theorem kingPointsMap_congr {b1 b2 : List MetricRow} (mids : List String)
    (kid : String) (pts : List Int)
    (h : ∀ mid, sql_top3 b1 mid = sql_top3 b2 mid) :
    kingPointsMap b1 mids kid pts = kingPointsMap b2 mids kid pts := by
  unfold kingPointsMap
  suffices hs : ∀ acc : List (PlayerId × Int),
      mids.foldl (fun m mid =>
        if mid = kid then m
        else (awardRanks pts (sql_top3 b1 mid)).foldl
          (fun m2 e => addPoints m2 e.1 e.2) m) acc =
      mids.foldl (fun m mid =>
        if mid = kid then m
        else (awardRanks pts (sql_top3 b2 mid)).foldl
          (fun m2 e => addPoints m2 e.1 e.2) m) acc by
    exact hs []
  induction mids with
  | nil => intro acc; rfl
  | cons mid rest ih =>
    intro acc
    rw [List.foldl_cons, List.foldl_cons, h mid, ih]

/-- C4: the composite recompute (1) preserves every non-composite row
and carries over no stale composite row, (2) gives每 composite row the
accumulated rank-award total of its player, strictly positive, (3)
emits a row for every player whose accumulated total is positive, (4)
emits at most one row per player, (5) ranks each metric by value
descending with ties broken by ascending uuid, over at most 3 strictly
positive rows of the store, and (6) is deterministic in the row
multiset. -/
theorem recompute_king_characterization (store : List MetricRow) (mids : List String)
    (kid : String) (pts : List Int) :
    ((recompute_king_points store mids kid pts).filter
      (fun r => decide (¬ r.metric_id = kid))) =
      store.filter (fun r => decide (¬ r.metric_id = kid)) ∧
    (∀ r ∈ recompute_king_points store mids kid pts, r.metric_id = kid →
      0 < r.value ∧ r.value = king_total store mids kid pts r.uuid) ∧
    (∀ u : PlayerId, 0 < king_total store mids kid pts u →
      ({ metric_id := kid, uuid := u, value := king_total store mids kid pts u } : MetricRow) ∈
        recompute_king_points store mids kid pts) ∧
    ((((recompute_king_points store mids kid pts).filter
        (fun r => decide (r.metric_id = kid))).map MetricRow.uuid).Nodup) ∧
    (∀ mid : String,
      (sql_top3 store mid).Pairwise (fun x y => top3Le x y = true) ∧
      (sql_top3 store mid).length ≤ 3 ∧
      ∀ e ∈ sql_top3 store mid, 0 < e.2 ∧
        ({ metric_id := mid, uuid := e.1, value := e.2 } : MetricRow) ∈ store) ∧
    (∀ store2 : List MetricRow, store.Perm store2 →
      ((recompute_king_points store2 mids kid pts).filter
        (fun r => decide (r.metric_id = kid))) =
      ((recompute_king_points store mids kid pts).filter
        (fun r => decide (r.metric_id = kid))) ∧
      (recompute_king_points store mids kid pts).Perm
        (recompute_king_points store2 mids kid pts)) := by
  have hbase_def : ∀ s : List MetricRow, recompute_king_points s mids kid pts =
      s.filter (fun r => decide (¬ r.metric_id = kid)) ++
      ((kingPointsMap (s.filter (fun r => decide (¬ r.metric_id = kid))) mids kid pts).filter
        (fun e => decide (0 < e.2))).map
        (fun e => { metric_id := kid, uuid := e.1, value := e.2 }) := fun _ => rfl
  have hnew_all_kid : ∀ (s : List MetricRow)
      (r : MetricRow), r ∈ ((kingPointsMap (s.filter (fun x => decide (¬ x.metric_id = kid)))
        mids kid pts).filter (fun e => decide (0 < e.2))).map
        (fun e => ({ metric_id := kid, uuid := e.1, value := e.2 } : MetricRow)) →
      r.metric_id = kid := by
    intro s r hr
    obtain ⟨e, _, he⟩ := List.mem_map.mp hr
    rw [← he]
  have hfilter_kid : ∀ s : List MetricRow,
      (recompute_king_points s mids kid pts).filter (fun r => decide (r.metric_id = kid)) =
      ((kingPointsMap (s.filter (fun r => decide (¬ r.metric_id = kid))) mids kid pts).filter
        (fun e => decide (0 < e.2))).map
        (fun e => { metric_id := kid, uuid := e.1, value := e.2 }) := by
    intro s
    rw [hbase_def s, List.filter_append]
    have h1 : (s.filter (fun r => decide (¬ r.metric_id = kid))).filter
        (fun r => decide (r.metric_id = kid)) = [] := by
      rw [List.filter_eq_nil_iff]
      intro r hr
      have := of_decide_eq_true (List.mem_filter.mp hr).2
      simp [this]
    have h2 := List.filter_eq_self.mpr
      (fun (r : MetricRow) (hr : r ∈ ((kingPointsMap (s.filter
          (fun x => decide (¬ x.metric_id = kid))) mids kid pts).filter
          (fun e => decide (0 < e.2))).map
          (fun e => ({ metric_id := kid, uuid := e.1, value := e.2 } : MetricRow))) =>
        decide_eq_true (hnew_all_kid s r hr))
    rw [h1, h2, List.nil_append]
  refine ⟨?_, ?_, ?_, ?_, ?_, ?_⟩
  · rw [hbase_def store, List.filter_append]
    have h1 : (store.filter (fun r => decide (¬ r.metric_id = kid))).filter
        (fun r => decide (¬ r.metric_id = kid)) =
        store.filter (fun r => decide (¬ r.metric_id = kid)) :=
      List.filter_eq_self.mpr (fun r hr => (List.mem_filter.mp hr).2)
    have h2 : (((kingPointsMap (store.filter (fun r => decide (¬ r.metric_id = kid)))
        mids kid pts).filter (fun e => decide (0 < e.2))).map
        (fun e => ({ metric_id := kid, uuid := e.1, value := e.2 } : MetricRow))).filter
        (fun r => decide (¬ r.metric_id = kid)) = [] := by
      rw [List.filter_eq_nil_iff]
      intro r hr
      have := hnew_all_kid store r hr
      simp [this]
    rw [h1, h2, List.append_nil]
  · intro r hr hkid
    rw [hbase_def store] at hr
    rcases List.mem_append.mp hr with h1 | h1
    · have := of_decide_eq_true (List.mem_filter.mp h1).2
      exact absurd hkid this
    · obtain ⟨e, he, hee⟩ := List.mem_map.mp h1
      have hpos : 0 < e.2 := of_decide_eq_true (List.mem_filter.mp he).2
      have hmem : e ∈ kingPointsMap (store.filter (fun r => decide (¬ r.metric_id = kid)))
          mids kid pts := List.mem_of_mem_filter he
      have hlk : alookup (kingPointsMap (store.filter
          (fun r => decide (¬ r.metric_id = kid))) mids kid pts) e.1 = some e.2 :=
        alookup_of_mem_nodup (kingPointsMap_keys_nodup _ mids kid pts)
          (by rw [show (e.1, e.2) = e from rfl]; exact hmem)
      have htot : e.2 = king_total store mids kid pts e.1 := by
        have := kingPointsMap_lookupTotal (store.filter
          (fun r => decide (¬ r.metric_id = kid))) mids kid pts e.1
        unfold lookupTotal at this
        rw [hlk] at this
        simpa [king_total] using this
      constructor
      · rw [← hee]; exact hpos
      · rw [← hee]
        show e.2 = king_total store mids kid pts e.1
        exact htot
  · intro u hpos
    have hlt := kingPointsMap_lookupTotal (store.filter
      (fun r => decide (¬ r.metric_id = kid))) mids kid pts u
    have hkt : lookupTotal (kingPointsMap (store.filter
        (fun r => decide (¬ r.metric_id = kid))) mids kid pts) u =
        king_total store mids kid pts u := by
      rw [hlt]; rfl
    cases hl : alookup (kingPointsMap (store.filter
        (fun r => decide (¬ r.metric_id = kid))) mids kid pts) u with
    | none =>
      unfold lookupTotal at hkt
      rw [hl] at hkt
      rw [← hkt] at hpos
      exact absurd hpos (by simp)
    | some p =>
      unfold lookupTotal at hkt
      rw [hl] at hkt
      have hp : p = king_total store mids kid pts u := by simpa using hkt
      have hmem := mem_of_alookup_eq_some hl
      rw [hbase_def store]
      apply List.mem_append.mpr
      right
      apply List.mem_map.mpr
      refine ⟨(u, p), ?_, ?_⟩
      · exact List.mem_filter.mpr ⟨hmem, decide_eq_true (by rw [hp]; exact hpos)⟩
      · rw [hp]
  · rw [hfilter_kid store]
    rw [List.map_map]
    have : (MetricRow.uuid ∘ fun e : PlayerId × Int =>
        ({ metric_id := kid, uuid := e.1, value := e.2 } : MetricRow)) = Prod.fst := by
      funext e
      rfl
    rw [this]
    exact List.Nodup.sublist
      ((List.filter_sublist _).map Prod.fst)
      (kingPointsMap_keys_nodup _ mids kid pts)
  · intro mid
    refine ⟨?_, ?_, ?_⟩
    · unfold sql_top3
      exact List.Pairwise.sublist (List.take_sublist 3 _)
        (sortByLe_pairwise top3Le_trans top3Le_total _)
    · unfold sql_top3
      exact List.length_take_le 3 _
    · intro e he
      unfold sql_top3 at he
      have h1 : e ∈ sortByLe top3Le
          ((store.filter (fun r => decide (r.metric_id = mid) && decide (0 < r.value))).map
            (fun r => (r.uuid, r.value))) := List.take_subset 3 _ he
      have h2 := (sortByLe_perm top3Le _).mem_iff.mp h1
      obtain ⟨r, hr, hre⟩ := List.mem_map.mp h2
      obtain ⟨hrs, hrp⟩ := List.mem_filter.mp hr
      rw [Bool.and_eq_true] at hrp
      have hmid : r.metric_id = mid := of_decide_eq_true hrp.1
      have hval : 0 < r.value := of_decide_eq_true hrp.2
      constructor
      · rw [← hre]; exact hval
      · have heq : ({ metric_id := mid, uuid := e.1, value := e.2 } : MetricRow) = r := by
          obtain ⟨a, b, c⟩ := r
          rw [← hre]
          show ({ metric_id := mid, uuid := b, value := c } : MetricRow) = ⟨a, b, c⟩
          rw [show a = mid from hmid]
        rw [heq]
        exact hrs
  · intro store2 hperm
    have hbperm : (store.filter (fun r => decide (¬ r.metric_id = kid))).Perm
        (store2.filter (fun r => decide (¬ r.metric_id = kid))) := hperm.filter _
    have htop : ∀ mid, sql_top3 (store.filter (fun r => decide (¬ r.metric_id = kid))) mid =
        sql_top3 (store2.filter (fun r => decide (¬ r.metric_id = kid))) mid :=
      fun mid => sql_top3_perm_invariant hbperm mid
    have hmap : kingPointsMap (store.filter (fun r => decide (¬ r.metric_id = kid)))
        mids kid pts =
        kingPointsMap (store2.filter (fun r => decide (¬ r.metric_id = kid)))
        mids kid pts := kingPointsMap_congr mids kid pts htop
    constructor
    · rw [hfilter_kid store, hfilter_kid store2, hmap]
    · rw [hbase_def store, hbase_def store2, hmap]
      exact hbperm.append_right _

theorem recompute_king_characterization_witness :
    recompute_king_points
      [{ metric_id := "blocks", uuid := [1], value := 10 },
       { metric_id := "blocks", uuid := [2], value := 5 },
       { metric_id := "king", uuid := [9], value := 99 }]
      ["blocks", "king"] "king" [5, 3, 1] =
      [{ metric_id := "blocks", uuid := [1], value := 10 },
       { metric_id := "blocks", uuid := [2], value := 5 },
       { metric_id := "king", uuid := [1], value := 5 },
       { metric_id := "king", uuid := [2], value := 3 }] ∧
    (0 : Int) < 5 ∧ (5 : Int) = king_total
      [{ metric_id := "blocks", uuid := [1], value := 10 },
       { metric_id := "blocks", uuid := [2], value := 5 },
       { metric_id := "king", uuid := [9], value := 99 }]
      ["blocks", "king"] "king" [5, 3, 1] [1] := by
  have h := recompute_king_characterization
    [{ metric_id := "blocks", uuid := [1], value := 10 },
     { metric_id := "blocks", uuid := [2], value := 5 },
     { metric_id := "king", uuid := [9], value := 99 }]
    ["blocks", "king"] "king" [5, 3, 1]
  have h2 := h.2.1 { metric_id := "king", uuid := [1], value := 5 } (by decide) rfl
  exact ⟨by decide, h2.1, h2.2⟩

/-! ### Claim C9: rerun with unchanged inputs -/

/-- Whether the main loop keeps a file: valid uuid, not excluded,
parseable, play time at or above the threshold. -/
def keptFile (cfg : Cfg) (f : InputFile) : Bool :=
  match f.uuidBin, f.doc with
  | some u, some raw =>
      decide (u ∉ cfg.excluded) &&
      ! decide (play_time_of (strip_wall_banners (extractStats raw)) <
        cfg.min_play_ticks)
  | _, _ => false

theorem keptFile_eq (cfg : Cfg) (f : InputFile) (u : PlayerId) (raw : RawDoc)
    (hu : f.uuidBin = some u) (hdoc : f.doc = some raw) :
    keptFile cfg f =
      (decide (u ∉ cfg.excluded) &&
       ! decide (play_time_of (strip_wall_banners (extractStats raw)) <
         cfg.min_play_ticks)) := by
  unfold keptFile
  rw [hu, hdoc]

theorem keptFile_no_uuid (cfg : Cfg) (f : InputFile) (hu : f.uuidBin = none) :
    keptFile cfg f = false := by
  unfold keptFile
  rw [hu]

theorem keptFile_no_doc (cfg : Cfg) (f : InputFile) (u : PlayerId)
    (hu : f.uuidBin = some u) (hdoc : f.doc = none) :
    keptFile cfg f = false := by
  unfold keptFile
  rw [hu, hdoc]

/-- The profile row the loop buffers for a kept player. -/
def profileRowOf (nc : NameCfg) (u : PlayerId) : ProfileRow :=
  { uuid := u, name := (resolveName nc u).1,
    name_lc := strToLower (resolveName nc u).1,
    name_source := if nc.has_source then some (resolveName nc u).2.1 else none,
    name_checked_at := if nc.has_source && nc.has_checked
      then (resolveName nc u).2.2 else none,
    last_seen := nc.now_ts }

/-- The canonical digest of a parsed file's normalized stats. -/
def digestOfRaw (raw : RawDoc) : List Nat :=
  sha1 (canonical_bytes (strip_wall_banners (extractStats raw)))

theorem processFile_not_kept (cfg : Cfg) (nc : NameCfg)
    (ms : List (String × List MetricSource)) (st : PassState) (f : InputFile)
    (h : keptFile cfg f = false) :
    processFile cfg nc ms st f = { st with processed := st.processed + 1 } := by
  unfold processFile
  rcases hub : f.uuidBin with _ | u
  · rfl
  · rcases hdoc : f.doc with _ | raw
    · by_cases hex : u ∈ cfg.excluded <;> simp [hex]
    · rw [keptFile_eq cfg f u raw hub hdoc] at h
      by_cases hex : u ∈ cfg.excluded
      · simp [hex]
      · have h2 : play_time_of (strip_wall_banners (extractStats raw)) <
            cfg.min_play_ticks := by
          by_contra hno
          rw [decide_eq_true hex, decide_eq_false hno] at h
          simp at h
        simp [hex, h2]

theorem processFile_kept_match (cfg : Cfg) (nc : NameCfg)
    (ms : List (String × List MetricSource)) (st : PassState) (f : InputFile)
    (u : PlayerId) (raw : RawDoc)
    (hu : f.uuidBin = some u) (hex : u ∉ cfg.excluded) (hdoc : f.doc = some raw)
    (hdry : cfg.dry_run = false)
    (hkept : ¬ play_time_of (strip_wall_banners (extractStats raw)) < cfg.min_play_ticks)
    (hmatch : alookup st.existing_hash u = some (digestOfRaw raw)) :
    processFile cfg nc ms st f =
      { st with processed := st.processed + 1, kept := st.kept + 1,
                seen := st.seen ++ [u],
                profile_rows := st.profile_rows ++ [profileRowOf nc u] } := by
  unfold processFile
  rw [hu, hdoc]
  unfold digestOfRaw at hmatch
  simp [hex, hkept, hdry, hmatch, profileRowOf]

theorem processFile_kept_changed (cfg : Cfg) (nc : NameCfg)
    (ms : List (String × List MetricSource)) (st : PassState) (f : InputFile)
    (u : PlayerId) (raw : RawDoc)
    (hu : f.uuidBin = some u) (hex : u ∉ cfg.excluded) (hdoc : f.doc = some raw)
    (hdry : cfg.dry_run = false)
    (hkept : ¬ play_time_of (strip_wall_banners (extractStats raw)) < cfg.min_play_ticks)
    (hnm : ¬ alookup st.existing_hash u = some (digestOfRaw raw)) :
    processFile cfg nc ms st f =
      { st with processed := st.processed + 1, kept := st.kept + 1,
                seen := st.seen ++ [u],
                profile_rows := st.profile_rows ++ [profileRowOf nc u],
                changed := st.changed + 1,
                existing_hash := aupdate st.existing_hash u (digestOfRaw raw),
                changed_uuids := st.changed_uuids ++ [u],
                stats_rows := st.stats_rows ++ [(u, digestOfRaw raw)],
                metric_rows := st.metric_rows ++
                  computeMetrics ms (strip_wall_banners (extractStats raw)) u } := by
  unfold processFile
  rw [hu, hdoc]
  unfold digestOfRaw at hnm ⊢
  simp [hex, hkept, hdry, hnm, profileRowOf]

theorem keptFile_elim (cfg : Cfg) (f : InputFile) (h : keptFile cfg f = true) :
    ∃ u raw, f.uuidBin = some u ∧ u ∉ cfg.excluded ∧ f.doc = some raw ∧
      ¬ play_time_of (strip_wall_banners (extractStats raw)) < cfg.min_play_ticks := by
  rcases hub : f.uuidBin with _ | u
  · rw [keptFile_no_uuid cfg f hub] at h
    exact absurd h (by simp)
  · rcases hdoc : f.doc with _ | raw
    · rw [keptFile_no_doc cfg f u hub hdoc] at h
      exact absurd h (by simp)
    · rw [keptFile_eq cfg f u raw hub hdoc] at h
      rw [Bool.and_eq_true] at h
      refine ⟨u, raw, rfl, of_decide_eq_true h.1, rfl, ?_⟩
      have := h.2
      simp only [Bool.not_eq_true', decide_eq_false_iff_not] at this
      exact this

theorem processFile_processed (cfg : Cfg) (nc : NameCfg)
    (ms : List (String × List MetricSource)) (st : PassState) (f : InputFile) :
    (processFile cfg nc ms st f).processed = st.processed + 1 := by
  by_cases h : keptFile cfg f = true
  · obtain ⟨u, raw, hu, hex, hdoc, hkept⟩ := keptFile_elim cfg f h
    by_cases hdry : cfg.dry_run = true
    · unfold processFile
      rw [hu, hdoc]
      simp only [hex, hkept, hdry, if_neg, ite_false, if_false, if_true,
        ite_true, not_false_iff]
      split <;> rfl
    · have hdry2 : cfg.dry_run = false := by
        cases hd : cfg.dry_run
        · rfl
        · exact absurd hd hdry
      by_cases hm : alookup st.existing_hash u = some (digestOfRaw raw)
      · rw [processFile_kept_match cfg nc ms st f u raw hu hex hdoc hdry2 hkept hm]
      · rw [processFile_kept_changed cfg nc ms st f u raw hu hex hdoc hdry2 hkept hm]
  · rw [processFile_not_kept cfg nc ms st f (by simpa using h)]

theorem processFile_kept_count (cfg : Cfg) (nc : NameCfg)
    (ms : List (String × List MetricSource)) (st : PassState) (f : InputFile)
    (hdry : cfg.dry_run = false) :
    (processFile cfg nc ms st f).kept =
      st.kept + (if keptFile cfg f = true then 1 else 0) := by
  by_cases h : keptFile cfg f = true
  · obtain ⟨u, raw, hu, hex, hdoc, hkept⟩ := keptFile_elim cfg f h
    rw [if_pos h]
    by_cases hm : alookup st.existing_hash u = some (digestOfRaw raw)
    · rw [processFile_kept_match cfg nc ms st f u raw hu hex hdoc hdry hkept hm]
    · rw [processFile_kept_changed cfg nc ms st f u raw hu hex hdoc hdry hkept hm]
  · rw [if_neg h, processFile_not_kept cfg nc ms st f (by simpa using h)]
    rfl

theorem processFile_hash_lookup_other (cfg : Cfg) (nc : NameCfg)
    (ms : List (String × List MetricSource)) (st : PassState) (f : InputFile)
    (v : PlayerId) (hv : f.uuidBin ≠ some v) (hdry : cfg.dry_run = false) :
    alookup (processFile cfg nc ms st f).existing_hash v =
      alookup st.existing_hash v := by
  by_cases h : keptFile cfg f = true
  · obtain ⟨u, raw, hu, hex, hdoc, hkept⟩ := keptFile_elim cfg f h
    have huv : ¬ v = u := fun he => hv (he ▸ hu)
    by_cases hm : alookup st.existing_hash u = some (digestOfRaw raw)
    · rw [processFile_kept_match cfg nc ms st f u raw hu hex hdoc hdry hkept hm]
    · rw [processFile_kept_changed cfg nc ms st f u raw hu hex hdoc hdry hkept hm]
      show alookup (aupdate st.existing_hash u (digestOfRaw raw)) v = _
      rw [aupdate_alookup, if_neg huv]
  · rw [processFile_not_kept cfg nc ms st f (by simpa using h)]

theorem processFile_seen_mono (cfg : Cfg) (nc : NameCfg)
    (ms : List (String × List MetricSource)) (st : PassState) (f : InputFile)
    (hdry : cfg.dry_run = false) :
    st.seen ⊆ (processFile cfg nc ms st f).seen := by
  by_cases h : keptFile cfg f = true
  · obtain ⟨u, raw, hu, hex, hdoc, hkept⟩ := keptFile_elim cfg f h
    by_cases hm : alookup st.existing_hash u = some (digestOfRaw raw)
    · rw [processFile_kept_match cfg nc ms st f u raw hu hex hdoc hdry hkept hm]
      intro x hx
      exact List.mem_append.mpr (Or.inl hx)
    · rw [processFile_kept_changed cfg nc ms st f u raw hu hex hdoc hdry hkept hm]
      intro x hx
      exact List.mem_append.mpr (Or.inl hx)
  · rw [processFile_not_kept cfg nc ms st f (by simpa using h)]
    exact fun x hx => hx

theorem foldl_processed (cfg : Cfg) (nc : NameCfg)
    (ms : List (String × List MetricSource)) :
    ∀ (files : List InputFile) (st : PassState),
    (files.foldl (processFile cfg nc ms) st).processed = st.processed + files.length := by
  intro files
  induction files with
  | nil => intro st; simp
  | cons f rest ih =>
    intro st
    rw [List.foldl_cons, ih, processFile_processed]
    simp only [List.length_cons]
    omega

theorem foldl_kept (cfg : Cfg) (nc : NameCfg)
    (ms : List (String × List MetricSource)) (hdry : cfg.dry_run = false) :
    ∀ (files : List InputFile) (st : PassState),
    (files.foldl (processFile cfg nc ms) st).kept =
      st.kept + (files.filter (keptFile cfg)).length := by
  intro files
  induction files with
  | nil => intro st; simp
  | cons f rest ih =>
    intro st
    rw [List.foldl_cons, ih, processFile_kept_count cfg nc ms st f hdry,
      List.filter_cons]
    by_cases h : keptFile cfg f = true
    · rw [if_pos h, if_pos h]
      simp only [List.length_cons]
      omega
    · rw [if_neg h, if_neg (by simpa using h)]
      omega

theorem foldl_all_match (cfg : Cfg) (nc : NameCfg)
    (ms : List (String × List MetricSource)) (hdry : cfg.dry_run = false) :
    ∀ (files : List InputFile) (st : PassState),
    (∀ f ∈ files, ∀ u raw, f.uuidBin = some u → f.doc = some raw →
      keptFile cfg f = true → alookup st.existing_hash u = some (digestOfRaw raw)) →
    (files.foldl (processFile cfg nc ms) st).changed = st.changed ∧
    (files.foldl (processFile cfg nc ms) st).stats_rows = st.stats_rows ∧
    (files.foldl (processFile cfg nc ms) st).metric_rows = st.metric_rows ∧
    (files.foldl (processFile cfg nc ms) st).changed_uuids = st.changed_uuids ∧
    (files.foldl (processFile cfg nc ms) st).existing_hash = st.existing_hash := by
  intro files
  induction files with
  | nil => intro st _; exact ⟨rfl, rfl, rfl, rfl, rfl⟩
  | cons f rest ih =>
    intro st hall
    rw [List.foldl_cons]
    by_cases h : keptFile cfg f = true
    · obtain ⟨u, raw, hu, hex, hdoc, hkept⟩ := keptFile_elim cfg f h
      have hm := hall f (List.mem_cons_self f rest) u raw hu hdoc h
      rw [processFile_kept_match cfg nc ms st f u raw hu hex hdoc hdry hkept hm]
      exact ih _ (fun f2 hf2 u2 raw2 hu2 hdoc2 hk2 =>
        hall f2 (List.mem_cons_of_mem f hf2) u2 raw2 hu2 hdoc2 hk2)
    · rw [processFile_not_kept cfg nc ms st f (by simpa using h)]
      exact ih _ (fun f2 hf2 u2 raw2 hu2 hdoc2 hk2 =>
        hall f2 (List.mem_cons_of_mem f hf2) u2 raw2 hu2 hdoc2 hk2)

theorem foldl_hash_other (cfg : Cfg) (nc : NameCfg)
    (ms : List (String × List MetricSource)) (hdry : cfg.dry_run = false)
    (v : PlayerId) :
    ∀ (files : List InputFile) (st : PassState),
    (∀ f ∈ files, f.uuidBin ≠ some v) →
    alookup (files.foldl (processFile cfg nc ms) st).existing_hash v =
      alookup st.existing_hash v := by
  intro files
  induction files with
  | nil => intro st _; rfl
  | cons f rest ih =>
    intro st hall
    rw [List.foldl_cons, ih _ (fun f2 hf2 => hall f2 (List.mem_cons_of_mem f hf2)),
      processFile_hash_lookup_other cfg nc ms st f v
        (hall f (List.mem_cons_self f rest)) hdry]

theorem foldl_seen_mono (cfg : Cfg) (nc : NameCfg)
    (ms : List (String × List MetricSource)) (hdry : cfg.dry_run = false) :
    ∀ (files : List InputFile) (st : PassState),
    st.seen ⊆ (files.foldl (processFile cfg nc ms) st).seen := by
  intro files
  induction files with
  | nil => intro st x hx; exact hx
  | cons f rest ih =>
    intro st
    rw [List.foldl_cons]
    exact fun x hx => ih _ (processFile_seen_mono cfg nc ms st f hdry hx)

theorem foldl_seen_of_kept (cfg : Cfg) (nc : NameCfg)
    (ms : List (String × List MetricSource)) (hdry : cfg.dry_run = false) :
    ∀ (files : List InputFile) (st : PassState),
    ∀ f ∈ files, keptFile cfg f = true → ∀ u, f.uuidBin = some u →
    u ∈ (files.foldl (processFile cfg nc ms) st).seen := by
  intro files
  induction files with
  | nil => intro st f hf; simp at hf
  | cons f0 rest ih =>
    intro st f hf hk u hu
    rw [List.foldl_cons]
    rcases List.mem_cons.mp hf with rfl | hf2
    · obtain ⟨u2, raw, hu2, hex, hdoc, hkept⟩ := keptFile_elim cfg f hk
      have huu : u2 = u := Option.some.inj (hu2.symm.trans hu)
      rw [huu] at hu2 hex
      have hin : u ∈ (processFile cfg nc ms st f).seen := by
        by_cases hm : alookup st.existing_hash u = some (digestOfRaw raw)
        · rw [processFile_kept_match cfg nc ms st f u raw hu2 hex hdoc hdry hkept hm]
          exact List.mem_append.mpr (Or.inr (List.mem_singleton.mpr rfl))
        · rw [processFile_kept_changed cfg nc ms st f u raw hu2 hex hdoc hdry hkept hm]
          exact List.mem_append.mpr (Or.inr (List.mem_singleton.mpr rfl))
      exact foldl_seen_mono cfg nc ms hdry rest _ hin
    · exact ih _ f hf2 hk u hu

theorem foldl_hash_stats_inv (cfg : Cfg) (nc : NameCfg)
    (ms : List (String × List MetricSource)) (hdry : cfg.dry_run = false)
    (hash0 : List (PlayerId × List Nat)) :
    ∀ (files : List InputFile) (st : PassState),
    st.existing_hash = st.stats_rows.foldl upsertStats hash0 →
    (files.foldl (processFile cfg nc ms) st).existing_hash =
      (files.foldl (processFile cfg nc ms) st).stats_rows.foldl upsertStats hash0 := by
  intro files
  induction files with
  | nil => intro st h; exact h
  | cons f rest ih =>
    intro st hinv
    rw [List.foldl_cons]
    apply ih
    by_cases h : keptFile cfg f = true
    · obtain ⟨u, raw, hu, hex, hdoc, hkept⟩ := keptFile_elim cfg f h
      by_cases hm : alookup st.existing_hash u = some (digestOfRaw raw)
      · rw [processFile_kept_match cfg nc ms st f u raw hu hex hdoc hdry hkept hm]
        exact hinv
      · rw [processFile_kept_changed cfg nc ms st f u raw hu hex hdoc hdry hkept hm]
        show aupdate st.existing_hash u (digestOfRaw raw) =
          (st.stats_rows ++ [(u, digestOfRaw raw)]).foldl upsertStats hash0
        rw [List.foldl_append, hinv]
        rfl
    · rw [processFile_not_kept cfg nc ms st f (by simpa using h)]
      exact hinv

theorem foldl_hash_final (cfg : Cfg) (nc : NameCfg)
    (ms : List (String × List MetricSource)) (hdry : cfg.dry_run = false) :
    ∀ (files : List InputFile) (st : PassState),
    (files.filterMap InputFile.uuidBin).Nodup →
    ∀ f ∈ files, keptFile cfg f = true → ∀ u raw, f.uuidBin = some u →
    f.doc = some raw →
    alookup (files.foldl (processFile cfg nc ms) st).existing_hash u =
      some (digestOfRaw raw) := by
  intro files
  induction files with
  | nil => intro st _ f hf; simp at hf
  | cons f0 rest ih =>
    intro st hnodup f hf hk u raw hu hdoc
    rw [List.foldl_cons]
    rcases List.mem_cons.mp hf with rfl | hf2
    · have hnodup2 : u ∉ rest.filterMap InputFile.uuidBin := by
        have : (f :: rest).filterMap InputFile.uuidBin =
            u :: rest.filterMap InputFile.uuidBin := by
          rw [List.filterMap_cons, hu]
        rw [this] at hnodup
        exact (List.nodup_cons.mp hnodup).1
      have hother : ∀ f2 ∈ rest, f2.uuidBin ≠ some u := by
        intro f2 hf2 hcon
        exact hnodup2 (List.mem_filterMap.mpr ⟨f2, hf2, hcon⟩)
      rw [foldl_hash_other cfg nc ms hdry u rest _ hother]
      obtain ⟨u2, raw2, hu2, hex, hdoc2, hkept⟩ := keptFile_elim cfg f hk
      have huu : u2 = u := Option.some.inj (hu2.symm.trans hu)
      have hrr : raw2 = raw := Option.some.inj (hdoc2.symm.trans hdoc)
      rw [huu] at hu2 hex
      rw [hrr] at hdoc2 hkept
      by_cases hm : alookup st.existing_hash u = some (digestOfRaw raw)
      · rw [processFile_kept_match cfg nc ms st f u raw hu2 hex hdoc2 hdry hkept hm]
        exact hm
      · rw [processFile_kept_changed cfg nc ms st f u raw hu2 hex hdoc2 hdry hkept hm]
        show alookup (aupdate st.existing_hash u (digestOfRaw raw)) u = _
        rw [aupdate_alookup, if_pos rfl]
    · have hnodup2 : (rest.filterMap InputFile.uuidBin).Nodup := by
        rw [List.filterMap_cons] at hnodup
        rcases h0 : f0.uuidBin with _ | u0
        · rw [h0] at hnodup
          exact hnodup
        · rw [h0] at hnodup
          exact (List.nodup_cons.mp hnodup).2
      exact ih _ hnodup2 f hf2 hk u raw hu hdoc

/-- The last digest written for `u` by the accumulated stats rows, if
any (`INSERT ... ON DUPLICATE KEY UPDATE` semantics: the last write
wins). -/
def lastAssoc (rows : List (PlayerId × List Nat)) (u : PlayerId) : Option (List Nat) :=
  alookup rows.reverse u

theorem foldl_upsertStats_alookup (rows : List (PlayerId × List Nat)) :
    ∀ (m0 : List (PlayerId × List Nat)) (u : PlayerId),
    alookup (rows.foldl upsertStats m0) u =
      match lastAssoc rows u with
      | some d => some d
      | none => alookup m0 u := by
  induction rows with
  | nil => intro m0 u; simp [lastAssoc, alookup]
  | cons r rest ih =>
    intro m0 u
    rw [List.foldl_cons, ih]
    have hup : alookup (upsertStats m0 r) u =
        if u = r.1 then some r.2 else alookup m0 u := aupdate_alookup m0 r.1 r.2 u
    have hlast : lastAssoc (r :: rest) u =
        match lastAssoc rest u with
        | some d => some d
        | none => if u = r.1 then some r.2 else none := by
      unfold lastAssoc
      rw [List.reverse_cons, alookup_append]
      cases alookup rest.reverse u with
      | none => simp [alookup]
      | some d => rfl
    rw [hlast]
    cases lastAssoc rest u with
    | some d => rfl
    | none =>
      rw [hup]
      by_cases h : u = r.1
      · rw [if_pos h, if_pos h]
      · rw [if_neg h, if_neg h]

theorem aupdate_keys_nodup {κ β : Type} [DecidableEq κ]
    (m : List (κ × β)) (k : κ) (v : β) (h : (m.map Prod.fst).Nodup) :
    ((aupdate m k v).map Prod.fst).Nodup := by
  unfold aupdate
  by_cases hany : m.any (fun e => decide (e.1 = k)) = true
  · rw [if_pos hany]
    have : (m.map (fun e => if e.1 = k then (e.1, v) else e)).map Prod.fst =
        m.map Prod.fst := by
      rw [List.map_map]
      apply List.map_congr_left
      intro e _
      by_cases he : e.1 = k <;> simp [he]
    rw [this]
    exact h
  · rw [if_neg hany]
    rw [List.map_append]
    simp only [List.map_cons, List.map_nil]
    rw [List.nodup_append]
    refine ⟨h, List.nodup_singleton k, ?_⟩
    intro x hx hk
    rw [List.mem_singleton.mp hk] at hx
    obtain ⟨e, he, hek⟩ := List.mem_map.mp hx
    exact hany (List.any_eq_true.mpr ⟨e, he, by simp [hek]⟩)

theorem foldl_upsertStats_keys_nodup (rows : List (PlayerId × List Nat)) :
    ∀ (m0 : List (PlayerId × List Nat)), (m0.map Prod.fst).Nodup →
    (((rows.foldl upsertStats m0)).map Prod.fst).Nodup := by
  induction rows with
  | nil => intro m0 h; exact h
  | cons r rest ih =>
    intro m0 h
    exact ih _ (aupdate_keys_nodup m0 r.1 r.2 h)

theorem alookup_filter_keep {κ β : Type} [DecidableEq κ]
    (p : κ × β → Bool) (m : List (κ × β)) (hnd : (m.map Prod.fst).Nodup)
    {q : κ} {v : β} (h : alookup m q = some v) (hp : p (q, v) = true) :
    alookup (m.filter p) q = some v := by
  have hmem : (q, v) ∈ m.filter p :=
    List.mem_filter.mpr ⟨mem_of_alookup_eq_some h, hp⟩
  have hnd2 : ((m.filter p).map Prod.fst).Nodup :=
    List.Nodup.sublist ((List.filter_sublist m).map Prod.fst) hnd
  exact alookup_of_mem_nodup hnd2 hmem

theorem alookup_of_filter {κ β : Type} [DecidableEq κ]
    (p : κ × β → Bool) (m : List (κ × β)) (hnd : (m.map Prod.fst).Nodup)
    {q : κ} {v : β} (h : alookup (m.filter p) q = some v) :
    alookup m q = some v :=
  alookup_of_mem_nodup hnd (List.mem_of_mem_filter (mem_of_alookup_eq_some h))

theorem beBytes_length : ∀ (k n : Nat), (beBytes k n).length = k := by
  intro k
  induction k with
  | zero => intro n; rfl
  | succ k ih =>
    intro n
    unfold beBytes
    rw [List.length_append, ih]
    rfl

theorem sha1_length (msg : List Nat) : (sha1 msg).length = 20 := by
  rcases h : List.foldl sha1Chunk (1732584193, 4023233417, 2562383102, 271733878, 3285377520)
      (chunks64 (sha1Pad msg).length (sha1Pad msg)) with ⟨a, b, c, d, e⟩
  have h2 : sha1 msg = (List.map (beBytes 4) [a, b, c, d, e]).flatten := by
    show (match List.foldl sha1Chunk (1732584193, 4023233417, 2562383102, 271733878, 3285377520)
        (chunks64 (sha1Pad msg).length (sha1Pad msg)) with
      | (h0, h1, h2, h3, h4) => (List.map (beBytes 4) [h0, h1, h2, h3, h4]).flatten) =
      (List.map (beBytes 4) [a, b, c, d, e]).flatten
    rw [h]
  rw [h2]
  simp [beBytes_length]

theorem ensure_run_id_stats (db : Db) : (ensure_run_id db).2.stats = db.stats := by
  unfold ensure_run_id
  rcases db.active_run_id with _ | r <;> rfl

theorem main_run_pass_eq (cfg : Cfg) (ms : List (String × List MetricSource))
    (files : List InputFile) (db : Db)
    (hms : ms.isEmpty = false) (hdry : cfg.dry_run = false) :
    (main_run cfg ms files db).pass =
      runPass cfg (ncOf cfg (ensure_run_id db).2) ms
        (load_existing_hashes (ensure_run_id db).2.stats) files := by
  unfold main_run
  simp only [hms, hdry, Bool.false_eq_true, if_false, ite_false]

theorem main_run_stats_eq (cfg : Cfg) (ms : List (String × List MetricSource))
    (files : List InputFile) (db : Db)
    (hms : ms.isEmpty = false) (hdry : cfg.dry_run = false) :
    (main_run cfg ms files db).db.stats =
      ((runPass cfg (ncOf cfg (ensure_run_id db).2) ms
          (load_existing_hashes (ensure_run_id db).2.stats) files).stats_rows.foldl
        upsertStats (ensure_run_id db).2.stats).filter
        (fun e => decide (e.1 ∈ (runPass cfg (ncOf cfg (ensure_run_id db).2) ms
          (load_existing_hashes (ensure_run_id db).2.stats) files).seen)) := by
  unfold main_run
  simp only [hms, hdry, Bool.false_eq_true, if_false, ite_false]
  by_cases hk : cfg.no_king = true <;> simp [hk, applyPassWrites, cleanupDb]

set_option maxHeartbeats 2000000 in
/-- After a non-dry pass, the persisted digest of every kept player's
stats equals that player's canonical digest: this is what a rerun loads
into its in-memory map. -/
theorem rerun_hash_precondition (cfg : Cfg) (ms : List (String × List MetricSource))
    (files : List InputFile) (db : Db)
    (hdry : cfg.dry_run = false) (hms : ms.isEmpty = false)
    (hnodup : (files.filterMap InputFile.uuidBin).Nodup)
    (hdb : (db.stats.map Prod.fst).Nodup) :
    ∀ f ∈ files, keptFile cfg f = true → ∀ u raw, f.uuidBin = some u →
    f.doc = some raw →
    alookup (load_existing_hashes (main_run cfg ms files db).db.stats) u =
      some (digestOfRaw raw) := by
  intro f hf hk u raw hu hdoc
  have hdb1 : ((ensure_run_id db).2.stats.map Prod.fst).Nodup := by
    rw [ensure_run_id_stats]
    exact hdb
  have hh0nd : ((load_existing_hashes (ensure_run_id db).2.stats).map Prod.fst).Nodup :=
    List.Nodup.sublist
      ((List.filter_sublist _).map Prod.fst) hdb1
  have hF1 : alookup (runPass cfg (ncOf cfg (ensure_run_id db).2) ms
      (load_existing_hashes (ensure_run_id db).2.stats) files).existing_hash u =
      some (digestOfRaw raw) :=
    foldl_hash_final cfg (ncOf cfg (ensure_run_id db).2) ms hdry files _ hnodup
      f hf hk u raw hu hdoc
  have hF2 : (runPass cfg (ncOf cfg (ensure_run_id db).2) ms
      (load_existing_hashes (ensure_run_id db).2.stats) files).existing_hash =
      (runPass cfg (ncOf cfg (ensure_run_id db).2) ms
        (load_existing_hashes (ensure_run_id db).2.stats) files).stats_rows.foldl
        upsertStats (load_existing_hashes (ensure_run_id db).2.stats) :=
    foldl_hash_stats_inv cfg (ncOf cfg (ensure_run_id db).2) ms hdry
      (load_existing_hashes (ensure_run_id db).2.stats) files _ rfl
  have hF3 : u ∈ (runPass cfg (ncOf cfg (ensure_run_id db).2) ms
      (load_existing_hashes (ensure_run_id db).2.stats) files).seen :=
    foldl_seen_of_kept cfg (ncOf cfg (ensure_run_id db).2) ms hdry files _ f hf hk u hu
  rw [hF2] at hF1
  rw [foldl_upsertStats_alookup] at hF1
  have htarget : alookup ((runPass cfg (ncOf cfg (ensure_run_id db).2) ms
      (load_existing_hashes (ensure_run_id db).2.stats) files).stats_rows.foldl
      upsertStats (ensure_run_id db).2.stats) u = some (digestOfRaw raw) := by
    rw [foldl_upsertStats_alookup]
    cases hl : lastAssoc (runPass cfg (ncOf cfg (ensure_run_id db).2) ms
        (load_existing_hashes (ensure_run_id db).2.stats) files).stats_rows u with
    | some d2 =>
      rw [hl] at hF1
      exact hF1
    | none =>
      rw [hl] at hF1
      exact alookup_of_filter _ _ hdb1 hF1
  have hndfold : (((runPass cfg (ncOf cfg (ensure_run_id db).2) ms
      (load_existing_hashes (ensure_run_id db).2.stats) files).stats_rows.foldl
      upsertStats (ensure_run_id db).2.stats).map Prod.fst).Nodup :=
    foldl_upsertStats_keys_nodup _ _ hdb1
  have hfiltered : alookup (((runPass cfg (ncOf cfg (ensure_run_id db).2) ms
      (load_existing_hashes (ensure_run_id db).2.stats) files).stats_rows.foldl
      upsertStats (ensure_run_id db).2.stats).filter
      (fun e => decide (e.1 ∈ (runPass cfg (ncOf cfg (ensure_run_id db).2) ms
        (load_existing_hashes (ensure_run_id db).2.stats) files).seen))) u =
      some (digestOfRaw raw) :=
    alookup_filter_keep _ _ hndfold htarget (decide_eq_true hF3)
  have hndfiltered : ((((runPass cfg (ncOf cfg (ensure_run_id db).2) ms
      (load_existing_hashes (ensure_run_id db).2.stats) files).stats_rows.foldl
      upsertStats (ensure_run_id db).2.stats).filter
      (fun e => decide (e.1 ∈ (runPass cfg (ncOf cfg (ensure_run_id db).2) ms
        (load_existing_hashes (ensure_run_id db).2.stats) files).seen))).map
      Prod.fst).Nodup :=
    List.Nodup.sublist ((List.filter_sublist _).map Prod.fst) hndfold
  have hlen : (digestOfRaw raw).length = 20 := sha1_length _
  rw [main_run_stats_eq cfg ms files db hms hdry]
  unfold load_existing_hashes
  exact alookup_filter_keep _ _ hndfiltered hfiltered (decide_eq_true hlen)

/-- C9 (amended): a rerun with input files identical to the previous
pass — filenames mapping to pairwise-distinct player ids — reports the
same processed and kept counts as the previous pass, a changed count of
0, and performs no StatsSnapshot writes, no per-player MetricValue
writes and no per-player metric deletes. -/
theorem rerun_identical_inputs (cfg : Cfg) (ms : List (String × List MetricSource))
    (files : List InputFile) (db : Db)
    (hdry : cfg.dry_run = false) (hms : ms.isEmpty = false)
    (hnodup : (files.filterMap InputFile.uuidBin).Nodup)
    (hdb : (db.stats.map Prod.fst).Nodup) :
    (main_run cfg ms files (main_run cfg ms files db).db).pass.processed =
      (main_run cfg ms files db).pass.processed ∧
    (main_run cfg ms files (main_run cfg ms files db).db).pass.kept =
      (main_run cfg ms files db).pass.kept ∧
    (main_run cfg ms files (main_run cfg ms files db).db).pass.changed = 0 ∧
    (main_run cfg ms files (main_run cfg ms files db).db).pass.stats_rows = [] ∧
    (main_run cfg ms files (main_run cfg ms files db).db).pass.metric_rows = [] ∧
    (main_run cfg ms files (main_run cfg ms files db).db).pass.changed_uuids = [] := by
  have hpass1 := main_run_pass_eq cfg ms files db hms hdry
  have hpass2 := main_run_pass_eq cfg ms files (main_run cfg ms files db).db hms hdry
  have hpre := rerun_hash_precondition cfg ms files db hdry hms hnodup hdb
  have hall : ∀ f ∈ files, ∀ u raw, f.uuidBin = some u → f.doc = some raw →
      keptFile cfg f = true →
      alookup (initPass (load_existing_hashes
        (ensure_run_id (main_run cfg ms files db).db).2.stats)).existing_hash u =
        some (digestOfRaw raw) := by
    intro f hf u raw hu hdoc hk
    show alookup (load_existing_hashes
      (ensure_run_id (main_run cfg ms files db).db).2.stats) u = some (digestOfRaw raw)
    rw [ensure_run_id_stats]
    exact hpre f hf hk u raw hu hdoc
  have hmatch := foldl_all_match cfg
    (ncOf cfg (ensure_run_id (main_run cfg ms files db).db).2) ms hdry files
    (initPass (load_existing_hashes
      (ensure_run_id (main_run cfg ms files db).db).2.stats)) hall
  refine ⟨?_, ?_, ?_, ?_, ?_, ?_⟩
  · rw [hpass1, hpass2]
    unfold runPass
    rw [foldl_processed, foldl_processed]
    rfl
  · rw [hpass1, hpass2]
    unfold runPass
    rw [foldl_kept cfg _ ms hdry, foldl_kept cfg _ ms hdry]
    rfl
  · rw [hpass2]
    exact hmatch.1
  · rw [hpass2]
    exact hmatch.2.1
  · rw [hpass2]
    exact hmatch.2.2.1
  · rw [hpass2]
    exact hmatch.2.2.2.1

/-- C9 (counterexample to the claim as stated): with one below-threshold
input file, the rerun's processed count is 1 while the previous pass's
kept count is 0 — "rerun processed equals prior kept" fails. -/
theorem rerun_processed_ne_prior_kept :
    (main_run
      { min_play_ticks := 1, excluded := [], dry_run := false, no_king := false,
        king_metric_id := "king", king_points := [], usercache := [], now_ts := "t",
        has_source := true, has_checked := true }
      [("m", [{ metric_id := "m", sectionName := "s", mc_key := "k", weight := 1 }])]
      [{ uuidBin := some [0, 0, 0, 0, 0, 0, 0, 0, 0, 0, 0, 0, 0, 0, 0, 7],
         doc := some (RawDoc.plain []) }]
      (main_run
        { min_play_ticks := 1, excluded := [], dry_run := false, no_king := false,
          king_metric_id := "king", king_points := [], usercache := [], now_ts := "t",
          has_source := true, has_checked := true }
        [("m", [{ metric_id := "m", sectionName := "s", mc_key := "k", weight := 1 }])]
        [{ uuidBin := some [0, 0, 0, 0, 0, 0, 0, 0, 0, 0, 0, 0, 0, 0, 0, 7],
           doc := some (RawDoc.plain []) }]
        { active_run_id := some 1, next_run_id := 2, run_gen := 0,
          profiles := [], stats := [], metrics := [] }).db).pass.processed = 1 ∧
    (main_run
      { min_play_ticks := 1, excluded := [], dry_run := false, no_king := false,
        king_metric_id := "king", king_points := [], usercache := [], now_ts := "t",
        has_source := true, has_checked := true }
      [("m", [{ metric_id := "m", sectionName := "s", mc_key := "k", weight := 1 }])]
      [{ uuidBin := some [0, 0, 0, 0, 0, 0, 0, 0, 0, 0, 0, 0, 0, 0, 0, 7],
         doc := some (RawDoc.plain []) }]
      { active_run_id := some 1, next_run_id := 2, run_gen := 0,
        profiles := [], stats := [], metrics := [] }).pass.kept = 0 := by
  decide

theorem rerun_identical_inputs_witness :
    (main_run
      { min_play_ticks := 0, excluded := [], dry_run := false, no_king := true,
        king_metric_id := "king", king_points := [], usercache := [], now_ts := "t",
        has_source := true, has_checked := true }
      [("m", [{ metric_id := "m", sectionName := "minecraft:custom",
                mc_key := "minecraft:play_time", weight := 1 }])]
      [{ uuidBin := some [0, 0, 0, 0, 0, 0, 0, 0, 0, 0, 0, 0, 0, 0, 0, 7],
         doc := some (RawDoc.plain
           [("minecraft:custom", .dict [("minecraft:play_time", .num 72000)])]) }]
      (main_run
        { min_play_ticks := 0, excluded := [], dry_run := false, no_king := true,
          king_metric_id := "king", king_points := [], usercache := [], now_ts := "t",
          has_source := true, has_checked := true }
        [("m", [{ metric_id := "m", sectionName := "minecraft:custom",
                  mc_key := "minecraft:play_time", weight := 1 }])]
        [{ uuidBin := some [0, 0, 0, 0, 0, 0, 0, 0, 0, 0, 0, 0, 0, 0, 0, 7],
           doc := some (RawDoc.plain
             [("minecraft:custom", .dict [("minecraft:play_time", .num 72000)])]) }]
        { active_run_id := some 1, next_run_id := 2, run_gen := 0,
          profiles := [], stats := [], metrics := [] }).db).pass.changed = 0 ∧
    (main_run
      { min_play_ticks := 0, excluded := [], dry_run := false, no_king := true,
        king_metric_id := "king", king_points := [], usercache := [], now_ts := "t",
        has_source := true, has_checked := true }
      [("m", [{ metric_id := "m", sectionName := "minecraft:custom",
                mc_key := "minecraft:play_time", weight := 1 }])]
      [{ uuidBin := some [0, 0, 0, 0, 0, 0, 0, 0, 0, 0, 0, 0, 0, 0, 0, 7],
         doc := some (RawDoc.plain
           [("minecraft:custom", .dict [("minecraft:play_time", .num 72000)])]) }]
      (main_run
        { min_play_ticks := 0, excluded := [], dry_run := false, no_king := true,
          king_metric_id := "king", king_points := [], usercache := [], now_ts := "t",
          has_source := true, has_checked := true }
        [("m", [{ metric_id := "m", sectionName := "minecraft:custom",
                  mc_key := "minecraft:play_time", weight := 1 }])]
        [{ uuidBin := some [0, 0, 0, 0, 0, 0, 0, 0, 0, 0, 0, 0, 0, 0, 0, 7],
           doc := some (RawDoc.plain
             [("minecraft:custom", .dict [("minecraft:play_time", .num 72000)])]) }]
        { active_run_id := some 1, next_run_id := 2, run_gen := 0,
          profiles := [], stats := [], metrics := [] }).db).pass.stats_rows = [] := by
  have h := rerun_identical_inputs
    { min_play_ticks := 0, excluded := [], dry_run := false, no_king := true,
      king_metric_id := "king", king_points := [], usercache := [], now_ts := "t",
      has_source := true, has_checked := true }
    [("m", [{ metric_id := "m", sectionName := "minecraft:custom",
              mc_key := "minecraft:play_time", weight := 1 }])]
    [{ uuidBin := some [0, 0, 0, 0, 0, 0, 0, 0, 0, 0, 0, 0, 0, 0, 0, 7],
       doc := some (RawDoc.plain
         [("minecraft:custom", .dict [("minecraft:play_time", .num 72000)])]) }]
    { active_run_id := some 1, next_run_id := 2, run_gen := 0,
      profiles := [], stats := [], metrics := [] }
    rfl rfl (by decide) (by decide)
  exact ⟨h.2.2.1, h.2.2.2.1⟩

end Importer
